import Mathlib

/-!
# rollbar-terraform-importer: a shallow embedding

The Go program fetches projects, teams and users of a Rollbar account over
HTTP (`fetcher`), renders them as Terraform resource blocks and
`terraform import` lines (`writer`), and is driven by `main`/`generate`.

Modelling conventions.

* A Go `string` is a Lean `String`; every character the program inspects is
  ASCII, so working on code points instead of bytes changes nothing.
* A Go `int` is an `Int`; the program only prints and compares them.
* The process state is a `World`: the files (each file is the sequence of
  strings written to it, its content their concatenation) and the trace of
  calls made to the HTTP client and to `json.Unmarshal`.
* What the program cannot decide itself is an oracle in `Env`: the HTTP
  answers, `json.Unmarshal` for each response type of `schema.go`, whether
  `os.OpenFile` fails, what `os.Stat` reports, and the Unicode table behind
  the validator tag `alphanumunicode`.
* `os.Exit(c)` and `log.Fatal` (which exits with status 1) end a run:
  `Step.exit c w`. Console output is not modelled. A `WriteString` on an
  open file is taken to succeed; `Sync` and `Close` do nothing observable.
-/

/-! ## Go library functions used by the program -/

namespace strconv

/-- Go `strconv.Itoa`: the decimal rendering of an integer. -/
def Itoa (i : Int) : String := toString i

end strconv

namespace strings

/-- Scanning loop of `strings.ReplaceAll` for a non-empty `old`: `skip` counts
the characters of a match that are still to be passed over. -/
def replaceFrom (old new : List Char) : Nat → List Char → List Char
  | _, [] => []
  | skip + 1, _ :: cs => replaceFrom old new skip cs
  | 0, c :: cs =>
    if old.isPrefixOf (c :: cs) then new ++ replaceFrom old new (old.length - 1) cs
    else c :: replaceFrom old new 0 cs

/-- Go `strings.ReplaceAll(s, old, new)`: every non-overlapping occurrence of
`old`, found left to right, is replaced by `new`; an empty `old` matches
before every character and at the end. -/
def ReplaceAll (s old new : String) : String :=
  if old.data = [] then ⟨new.data ++ s.data.flatMap (fun c => c :: new.data)⟩
  else ⟨replaceFrom old.data new.data 0 s.data⟩

end strings

namespace regexp

/-- Go `(*Regexp).ReplaceAllString` for a pattern that is a single character
class `cls` and a replacement text without `$`: each matching character is
replaced by `repl`, the others are copied. -/
def replaceClass (cls : Char → Bool) (repl : List Char) : List Char → List Char
  | [] => []
  | c :: cs =>
    if cls c then repl ++ replaceClass cls repl cs else c :: replaceClass cls repl cs

/-- `re.ReplaceAllString(src, repl)` where `re` is the character class `cls`. -/
def ReplaceAllString (cls : Char → Bool) (src repl : String) : String :=
  ⟨replaceClass cls repl.data src.data⟩

end regexp

namespace os

/-- The error of a failed `os.Stat`, by what it says of the path. -/
inductive StatError where
  /-- `ENOENT`, no such file or directory: `os.IsNotExist` holds of it. -/
  | notExist
  /-- `ENOTDIR`, a component of the path is not a directory, so there is no
  such path: `os.IsNotExist` does not hold of it. -/
  | notDir
  /-- Any other error, such as a permission denied on the way to the path; it
  does not tell whether the path exists. -/
  | other
  deriving DecidableEq

/-- Go `os.IsNotExist(err)`; a nil error is `none`. -/
def IsNotExist : Option StatError → Bool
  | some StatError.notExist => true
  | _ => false

end os

/-! ## fetcher/schema.go -/

set_option linter.dupNamespace false

namespace fetcher

structure AccessToken where
  AccessToken : String
  Name : String
  ProjectID : Int
  RateLimitWindowCount : Int
  RateLimitWindowSize : Int
  Scopes : List String
  Token : String
  deriving DecidableEq

structure Project where
  ID : Int
  AccountID : Int
  Name : String
  AccessTokens : List AccessToken
  deriving DecidableEq

structure Team where
  ID : Int
  AccountID : Int
  AccessLevel : String
  Name : String
  Users : List Int
  Projects : List Int
  deriving DecidableEq

structure TeamProjects where
  TeamID : Int
  ProjectID : Int
  deriving DecidableEq

structure TeamUsers where
  TeamID : Int
  UserID : Int
  deriving DecidableEq

structure User where
  ID : Int
  Email : String
  Username : String
  Teams : List Team
  deriving DecidableEq

structure accessTokenResponse where
  Err : Int
  Result : List AccessToken

structure projectResponse where
  Err : Int
  Result : List Project

structure teamResponse where
  Err : Int
  Result : List Team

structure teamProjectsResponse where
  Err : Int
  Result : List TeamProjects

structure teamUsersResponse where
  Err : Int
  Result : List TeamUsers

/-- The anonymous struct `Result` of `userResponse`. -/
structure userResult where
  Users : List User

structure userResponse where
  Err : Int
  Result : userResult

/-- The anonymous struct `Result` of `userTeamResponse`. -/
structure userTeamResult where
  Teams : List Team

structure userTeamResponse where
  Err : Int
  Result : userTeamResult

end fetcher

/-! ## The process state and its environment -/

/-- The response types of `schema.go` that a body is unmarshalled into. -/
inductive Shape where
  | accessTokenResponse
  | projectResponse
  | teamResponse
  | teamProjectsResponse
  | teamUsersResponse
  | userResponse
  | userTeamResponse
  deriving DecidableEq

/-- A call the program makes to a library that talks to the outside. -/
inductive Event where
  /-- The call `client.Do` for a GET request of the given URL. -/
  | get (url : String)
  /-- The call `json.Unmarshal` of a body into a value of the given type. -/
  | unmarshal (shape : Shape) (body : String)
  deriving DecidableEq

/-- What the program is run against. -/
structure Env where
  /-- The body answered to a GET of a URL with the given access token header,
  or `none` when the request or the reading of the body fails. -/
  httpGet : String → String → Option String
  unmarshalAccessTokenResponse : String → Option fetcher.accessTokenResponse
  unmarshalProjectResponse : String → Option fetcher.projectResponse
  unmarshalTeamResponse : String → Option fetcher.teamResponse
  unmarshalTeamProjectsResponse : String → Option fetcher.teamProjectsResponse
  unmarshalTeamUsersResponse : String → Option fetcher.teamUsersResponse
  unmarshalUserResponse : String → Option fetcher.userResponse
  unmarshalUserTeamResponse : String → Option fetcher.userTeamResponse
  /-- Whether `os.OpenFile(name, O_APPEND|O_CREATE|O_WRONLY, 0644)` fails. -/
  openFails : String → Bool
  /-- The error of `os.Stat(name)`, `none` when the call succeeds. -/
  stat : String → Option os.StatError
  /-- The Unicode classes `\p{L}` and `\p{N}` of the validator library. -/
  isLetterOrNumber : Char → Bool

/-- The files and the trace of library calls. -/
structure World where
  /-- For each path, `none` if there is no file, else the strings written. -/
  files : String → Option (List String)
  trace : List Event

/-- The byte content of a file. -/
def content (file : Option (List String)) : String :=
  String.join (file.getD [])

/-- Where a computation stands: it returned `a`, or the process has exited. -/
inductive Step (α : Type) where
  | ok (a : α) (w : World)
  | exit (code : Int) (w : World)

namespace Step

/-- The world a step ends in. -/
def world {α : Type} : Step α → World
  | ok _ w => w
  | exit _ w => w

/-- Sequencing: an exit ends the run. -/
def andThen {α β : Type} (s : Step α) (k : α → World → Step β) : Step β :=
  match s with
  | ok a w => k a w
  | exit c w => exit c w

end Step

/-! ## writer/writer.go -/

namespace writer

/-- The character class of the pattern `"[\\./, ]"` (an interpreted string
literal, so the pattern reads `[\./, ]`): dot, slash, comma, space. -/
def forbiddenUnderscore (c : Char) : Bool :=
  c = '.' || c = '/' || c = ',' || c = ' '

/-- The character class of the raw-string pattern `[\\(\\)\\?]`: in a raw
string `\\` stays two characters, which the pattern syntax reads as an escaped
backslash, so the class holds backslash, `(`, `)` and `?`. -/
def forbiddenStrip (c : Char) : Bool :=
  c = '\\' || c = '(' || c = ')' || c = '?'

/-- Go `sanitizeIdentifier`. -/
def sanitizeIdentifier (token : String) : String :=
  -- First, replace all the spaces and dots with underscores.
  let token := regexp.ReplaceAllString forbiddenUnderscore token "_"
  -- Then, remove known invalid characters.
  let token := regexp.ReplaceAllString forbiddenStrip token ""
  token

/-- Go `writeFile`: opens the file for appending, creating it when it does not
exist; a failure to open is fatal. The handle is the file's name. -/
def writeFile (env : Env) (filename : String) (w : World) : Step String :=
  if env.openFails filename then Step.exit 1 w
  else Step.ok filename
    { w with files := fun p => if p = filename then some ((w.files p).getD []) else w.files p }

/-- Go `outputFile.WriteString(s)` on a handle opened by `writeFile`. -/
def WriteString (outputFile : String) (s : String) (w : World) : World :=
  { w with files := fun p =>
      if p = outputFile then some ((w.files p).getD [] ++ [s]) else w.files p }

/-- Go `WriteProviderBlocks`. -/
def WriteProviderBlocks (env : Env) (filename : String) (w : World) : Step Unit :=
  (writeFile env filename w).andThen fun outputFile w =>
    let resource := "terraform \x7b\n  required_providers \x7b\n    rollbar = \x7b\n" ++
      "      source = \"rollbar/rollbar\"\n      version = \"1.0.6\"\n    \x7d\n  \x7d\n\x7d\n\n" ++
      "provider \"rollbar\" \x7b\n\x7d" ++ "\n\n"
    Step.ok () (WriteString outputFile resource w)

/-- Go `WriteProjectAccessTokens`. -/
def WriteProjectAccessTokens (env : Env) (projects : List fetcher.Project)
    (filename : String) (w : World) : Step Unit :=
  (writeFile env filename w).andThen fun outputFile w =>
    Step.ok () <| projects.foldl (fun w project =>
      project.AccessTokens.foldl (fun w accessToken =>
        let resource := "resource \"rollbar_project_access_token\" \"" ++
          sanitizeIdentifier project.Name ++ "_" ++
          sanitizeIdentifier accessToken.Name ++ "\" \x7b" ++ "\n" ++
          "  name = \"" ++ accessToken.Name ++ "\"" ++ "\n" ++
          "  project_id = rollbar_project." ++ sanitizeIdentifier project.Name ++ ".id" ++ "\n" ++
          "  depends_on = [rollbar_project." ++ sanitizeIdentifier project.Name ++ "]" ++ "\n" ++
          "  rate_limit_window_size = " ++ strconv.Itoa accessToken.RateLimitWindowSize ++ "\n" ++
          "  rate_limit_window_count = " ++ strconv.Itoa accessToken.RateLimitWindowCount ++ "\n" ++
          "\x7d" ++ "\n\n"
        WriteString outputFile resource w) w) w

/-- The inner loops of `WriteProjects` that build `projectTeamIDs`. -/
def projectTeamIDs (project : fetcher.Project) (teams : List fetcher.Team) : String :=
  let projectTeamIDs := "["
  let projectTeamIDs := teams.foldl (fun projectTeamIDs team =>
    team.Projects.foldl (fun projectTeamIDs teamProject =>
      if teamProject = project.ID then
        projectTeamIDs ++ ("rollbar_team." ++ sanitizeIdentifier team.Name ++ ".id, ")
      else projectTeamIDs) projectTeamIDs) projectTeamIDs
  projectTeamIDs ++ "]"

/-- The string `resource` that `WriteProjects` writes for one project. -/
def projectResource (project : fetcher.Project) (teams : List fetcher.Team) : String :=
  let projectTeamIDs := projectTeamIDs project teams
  if projectTeamIDs ≠ "[]" then
    "resource \"rollbar_project\" \"" ++ sanitizeIdentifier project.Name ++ "\" \x7b" ++ "\n" ++
      "  name = \"" ++ project.Name ++ "\"" ++ "\n" ++
      "  team_ids = " ++ projectTeamIDs ++ "\n" ++
      "  depends_on = " ++ strings.ReplaceAll projectTeamIDs ".id" "" ++ "\n" ++
      "\x7d" ++ "\n\n"
  else
    "resource \"rollbar_project\" \"" ++ sanitizeIdentifier project.Name ++ "\" \x7b" ++ "\n" ++
      "  name = \"" ++ project.Name ++ "\"" ++ "\n" ++
      "\x7d" ++ "\n\n"

/-- Go `WriteProjects`. -/
def WriteProjects (env : Env) (projects : List fetcher.Project) (teams : List fetcher.Team)
    (filename : String) (w : World) : Step Unit :=
  (writeFile env filename w).andThen fun outputFile w =>
    Step.ok () <| projects.foldl (fun w project =>
      WriteString outputFile (projectResource project teams) w) w

/-- Go `WriteTeams`. -/
def WriteTeams (env : Env) (teams : List fetcher.Team) (filename : String) (w : World) :
    Step Unit :=
  (writeFile env filename w).andThen fun outputFile w =>
    Step.ok () <| teams.foldl (fun w team =>
      let resource := "resource \"rollbar_team\" \"" ++ sanitizeIdentifier team.Name ++ "\" \x7b" ++ "\n" ++
        "  name = \"" ++ team.Name ++ "\"" ++ "\n" ++
        "\x7d" ++ "\n\n"
      WriteString outputFile resource w) w

/-- The string `resource` that `WriteUsers` writes for one user. -/
def userResource (user : fetcher.User) : String :=
  let teams := "["
  let teams := user.Teams.foldl (fun teams team =>
    teams ++ ("rollbar_team." ++ sanitizeIdentifier team.Name ++ ".id, ")) teams
  let teams := teams ++ "]"
  let resource := "resource \"rollbar_user\" \"" ++ sanitizeIdentifier user.Username ++ "\" \x7b" ++ "\n"
  let resource := if user.Email ≠ "" then
      resource ++ "  email = \"" ++ user.Email ++ "\"" ++ "\n"
    else resource
  let resource := if user.Teams.length > 0 then
      resource ++ "  team_ids = \"" ++ teams ++ "\"" ++ "\n"
    else resource
  resource ++ "\x7d" ++ "\n\n"

/-- Go `WriteUsers`. -/
def WriteUsers (env : Env) (users : List fetcher.User) (filename : String) (w : World) :
    Step Unit :=
  (writeFile env filename w).andThen fun outputFile w =>
    Step.ok () <| users.foldl (fun w user => WriteString outputFile (userResource user) w) w

/-- Go `WriteProjectAccessTokenImportCommands`. -/
def WriteProjectAccessTokenImportCommands (env : Env) (projects : List fetcher.Project)
    (filename : String) (w : World) : Step Unit :=
  (writeFile env filename w).andThen fun outputFile w =>
    Step.ok () <| projects.foldl (fun w project =>
      project.AccessTokens.foldl (fun w accessToken =>
        WriteString outputFile ("terraform import rollbar_project_access_token." ++
          sanitizeIdentifier project.Name ++ "_" ++
          sanitizeIdentifier accessToken.Name ++ " " ++ strconv.Itoa project.ID ++
          "/" ++ accessToken.AccessToken ++ "\n") w) w) w

/-- Go `WriteProjectImportCommands`. -/
def WriteProjectImportCommands (env : Env) (projects : List fetcher.Project)
    (filename : String) (w : World) : Step Unit :=
  (writeFile env filename w).andThen fun outputFile w =>
    Step.ok () <| projects.foldl (fun w project =>
      WriteString outputFile ("terraform import rollbar_project." ++
        sanitizeIdentifier project.Name ++ " " ++ strconv.Itoa project.ID ++ "\n") w) w

/-- Go `WriteTeamImportCommands`. -/
def WriteTeamImportCommands (env : Env) (teams : List fetcher.Team)
    (filename : String) (w : World) : Step Unit :=
  (writeFile env filename w).andThen fun outputFile w =>
    Step.ok () <| teams.foldl (fun w team =>
      WriteString outputFile ("terraform import rollbar_team." ++
        sanitizeIdentifier team.Name ++ " " ++ strconv.Itoa team.ID ++ "\n") w) w

/-- Go `WriteUserImportCommands`. -/
def WriteUserImportCommands (env : Env) (users : List fetcher.User)
    (filename : String) (w : World) : Step Unit :=
  (writeFile env filename w).andThen fun outputFile w =>
    Step.ok () <| users.foldl (fun w user =>
      WriteString outputFile ("terraform import rollbar_user." ++
        sanitizeIdentifier user.Username ++ " " ++ strconv.Itoa user.ID ++ "\n") w) w

end writer

/-! ## fetcher/fetcher.go -/

namespace fetcher

/-- Records the call `json.Unmarshal(body, &data)` with `data` of type `shape`. -/
def traceUnmarshal (shape : Shape) (body : String) (w : World) : World :=
  { w with trace := w.trace ++ [Event.unmarshal shape body] }

/-- Go `fetch`: a GET request of the endpoint; any failure is fatal. (The URL is
`baseURL` followed by an endpoint built by the program, so `http.NewRequest`
does not fail.) -/
def fetch (env : Env) (accessToken endpoint : String) (w : World) : Step String :=
  let baseURL := "https://api.rollbar.com/api/1/"
  let apiURL := baseURL ++ endpoint
  let w := { w with trace := w.trace ++ [Event.get apiURL] }
  match env.httpGet apiURL accessToken with
  | none => Step.exit 1 w
  | some body => Step.ok body w

/-- Go `fetchProjectAccessTokens`; the project is returned with its tokens. -/
def fetchProjectAccessTokens (env : Env) (accessToken : String) (project : Project)
    (w : World) : Step Project :=
  let projectID := strconv.Itoa project.ID
  let endpoint := "project/" ++ projectID ++ "/access_tokens"
  (fetch env accessToken endpoint w).andThen fun rawProjectAccessTokens w =>
    let w := traceUnmarshal Shape.accessTokenResponse rawProjectAccessTokens w
    match env.unmarshalAccessTokenResponse rawProjectAccessTokens with
    | none => Step.exit 1 w
    | some data =>
      if data.Err ≠ 0 then Step.exit 1 w
      else
        let accessTokens := data.Result
        Step.ok { project with
          AccessTokens := accessTokens.foldl (fun acc accessToken => acc ++ [accessToken])
            project.AccessTokens } w

/-- Go `fetchTeamProjects`; the team is returned with its project IDs. -/
def fetchTeamProjects (env : Env) (accessToken : String) (team : Team) (w : World) :
    Step Team :=
  let teamID := strconv.Itoa team.ID
  let endpoint := "team/" ++ teamID ++ "/projects"
  (fetch env accessToken endpoint w).andThen fun rawTeamProjects w =>
    let w := traceUnmarshal Shape.teamProjectsResponse rawTeamProjects w
    match env.unmarshalTeamProjectsResponse rawTeamProjects with
    | none => Step.exit 1 w
    | some data =>
      if data.Err ≠ 0 then Step.exit 1 w
      else
        Step.ok { team with
          Projects := data.Result.foldl (fun acc project => acc ++ [project.ProjectID])
            team.Projects } w

/-- Go `fetchTeamUsers`; the team is returned with its user IDs. -/
def fetchTeamUsers (env : Env) (accessToken : String) (team : Team) (w : World) :
    Step Team :=
  let teamID := strconv.Itoa team.ID
  let endpoint := "team/" ++ teamID ++ "/users"
  (fetch env accessToken endpoint w).andThen fun rawTeamUsers w =>
    let w := traceUnmarshal Shape.teamUsersResponse rawTeamUsers w
    match env.unmarshalTeamUsersResponse rawTeamUsers with
    | none => Step.exit 1 w
    | some data =>
      if data.Err ≠ 0 then Step.exit 1 w
      else
        Step.ok { team with
          Users := data.Result.foldl (fun acc user => acc ++ [user.UserID]) team.Users } w

/-- Go `fetchUserTeams`; the user is returned with its teams. -/
def fetchUserTeams (env : Env) (accessToken : String) (user : User) (w : World) :
    Step User :=
  let userID := strconv.Itoa user.ID
  let endpoint := "user/" ++ userID ++ "/teams"
  (fetch env accessToken endpoint w).andThen fun rawUserTeams w =>
    let w := traceUnmarshal Shape.userTeamResponse rawUserTeams w
    match env.unmarshalUserTeamResponse rawUserTeams with
    | none => Step.exit 1 w
    | some data =>
      if data.Err ≠ 0 then Step.exit 1 w
      else
        let teams := data.Result.Teams
        Step.ok { user with
          Teams := teams.foldl (fun acc team => acc ++ [team]) user.Teams } w

/-- The loop `for i := range xs { body(&xs[i]) }`: the body updates each
element in turn; an exit inside the body ends the run. -/
def forRange {α : Type} (body : α → World → Step α) : List α → World → Step (List α)
  | [], w => Step.ok [] w
  | x :: xs, w =>
    (body x w).andThen fun y w =>
      (forRange body xs w).andThen fun ys w => Step.ok (y :: ys) w

/-- Go `FetchProjects`. -/
def FetchProjects (env : Env) (accessToken : String) (w : World) : Step (List Project) :=
  (fetch env accessToken "projects" w).andThen fun rawProjects w =>
    let w := traceUnmarshal Shape.projectResponse rawProjects w
    match env.unmarshalProjectResponse rawProjects with
    | none => Step.exit 1 w
    | some data =>
      if data.Err ≠ 0 then Step.exit 1 w
      else
        let projects := data.Result
        forRange (fetchProjectAccessTokens env accessToken) projects w

/-- Go `FetchTeams`. -/
def FetchTeams (env : Env) (accessToken : String) (w : World) : Step (List Team) :=
  (fetch env accessToken "teams" w).andThen fun rawTeams w =>
    let w := traceUnmarshal Shape.teamResponse rawTeams w
    match env.unmarshalTeamResponse rawTeams with
    | none => Step.exit 1 w
    | some data =>
      if data.Err ≠ 0 then Step.exit 1 w
      else
        let teams := data.Result
        forRange (fun team w =>
          (fetchTeamProjects env accessToken team w).andThen fun team w =>
            fetchTeamUsers env accessToken team w) teams w

/-- Go `FetchUsers`. -/
def FetchUsers (env : Env) (accessToken : String) (w : World) : Step (List User) :=
  (fetch env accessToken "users" w).andThen fun rawUsers w =>
    let w := traceUnmarshal Shape.userResponse rawUsers w
    match env.unmarshalUserResponse rawUsers with
    | none => Step.exit 1 w
    | some data =>
      if data.Err ≠ 0 then Step.exit 1 w
      else
        let users := data.Result.Users
        forRange (fetchUserTeams env accessToken) users w

end fetcher

/-! ## main.go -/

namespace Main

open writer fetcher

/-- Go `generate`. -/
def generate (env : Env) (singleFile : Bool) (accessToken outPath : String) (w : World) :
    Step Unit :=
  -- Fetch the necessary data via the Rollbar API.
  (FetchProjects env accessToken w).andThen fun projects w =>
  (FetchTeams env accessToken w).andThen fun teams w =>
  (FetchUsers env accessToken w).andThen fun users w =>
  if singleFile then
    (WriteProviderBlocks env (outPath ++ "/rollbar_account.tf") w).andThen fun _ w =>
    (WriteTeams env teams (outPath ++ "/rollbar_account.tf") w).andThen fun _ w =>
    (WriteProjects env projects teams (outPath ++ "/rollbar_account.tf") w).andThen fun _ w =>
    (WriteProjectAccessTokens env projects (outPath ++ "/rollbar_account.tf") w).andThen fun _ w =>
    (WriteUsers env users (outPath ++ "/rollbar_account.tf") w).andThen fun _ w =>
    (WriteProjectAccessTokenImportCommands env projects (outPath ++ "/import") w).andThen fun _ w =>
    (WriteProjectImportCommands env projects (outPath ++ "/import") w).andThen fun _ w =>
    (WriteTeamImportCommands env teams (outPath ++ "/import") w).andThen fun _ w =>
    WriteUserImportCommands env users (outPath ++ "/import") w
  else
    (WriteProviderBlocks env (outPath ++ "/main.tf") w).andThen fun _ w =>
    (WriteTeams env teams (outPath ++ "/teams.tf") w).andThen fun _ w =>
    (WriteProjects env projects teams (outPath ++ "/projects.tf") w).andThen fun _ w =>
    (WriteProjectAccessTokens env projects (outPath ++ "/access_tokens.tf") w).andThen fun _ w =>
    (WriteUsers env users (outPath ++ "/users.tf") w).andThen fun _ w =>
    (WriteProjectAccessTokenImportCommands env projects (outPath ++ "/import") w).andThen fun _ w =>
    (WriteProjectImportCommands env projects (outPath ++ "/import") w).andThen fun _ w =>
    (WriteTeamImportCommands env teams (outPath ++ "/import") w).andThen fun _ w =>
    WriteUserImportCommands env users (outPath ++ "/import") w

/-- The validator tag `required` on a string: it is not the zero value. -/
def required (s : String) : Bool := s ≠ ""

/-- The validator tag `alphanumunicode`: the pattern `^[\p{L}\p{N}]+$`. -/
def alphanumunicode (env : Env) (s : String) : Bool :=
  s.data ≠ [] && s.data.all env.isLetterOrNumber

/-- Go `main` after `flag.Parse()`, on the values of the three flags. -/
def main (env : Env) (accessToken : String) (singleFile : Bool) (outPath : String)
    (w : World) : Step Unit :=
  -- Ensure that an access token was provided as an argument.
  if accessToken = "NO_TOKEN" then Step.exit (-1) w
  -- Validate the access token is actually an access token.
  else if ¬ (required accessToken && alphanumunicode env accessToken) then Step.exit (-1) w
  -- Validate that if any path, except the default was given, that it actually exists.
  else if os.IsNotExist (env.stat outPath) then Step.exit (-2) w
  -- Do something based on the user-defined options.
  else generate env singleFile accessToken outPath w

end Main

/-! ## Specification-side definitions -/

/-- A resource identifier as the specification describes it: non-empty, first
character a letter or underscore, every character a letter, digit, underscore
or hyphen. -/
def validIdentifier (s : String) : Bool :=
  match s.data with
  | [] => false
  | c :: cs => (c.isAlpha || c = '_') &&
      (c :: cs).all (fun d => d.isAlpha || d.isDigit || d = '_' || d = '-')

/-- The sanitization as the specification words it: space, dot, slash and
comma become an underscore, `(`, `)` and `?` are dropped, any other character
is kept. -/
def sanitizeAsSpecified (s : String) : String :=
  ⟨s.data.flatMap fun c =>
    if c = ' ' ∨ c = '.' ∨ c = '/' ∨ c = ',' then ['_']
    else if c = '(' ∨ c = ')' ∨ c = '?' then []
    else [c]⟩

/-- The sanitization as specified, with the backslash among the dropped
characters. -/
def sanitizeDroppingBackslash (s : String) : String :=
  ⟨s.data.flatMap fun c =>
    if c = ' ' ∨ c = '.' ∨ c = '/' ∨ c = ',' then ['_']
    else if c = '(' ∨ c = ')' ∨ c = '?' ∨ c = '\\' then []
    else [c]⟩

/-- The world in which the strings `chunks` have been appended to the file
`f`, created when it did not exist. -/
def World.append (w : World) (f : String) (chunks : List String) : World :=
  { w with files := fun p => if p = f then some ((w.files p).getD [] ++ chunks) else w.files p }

/-- The strings written to the file `f` on the way from world `w` to `w'`. -/
def written (f : String) (w w' : World) : List String :=
  ((w'.files f).getD []).drop ((w.files f).getD []).length

/-- The teams a project's block refers to: the teams in their order, each one
once for every occurrence of the project's ID in its project list. -/
def referencedTeams (project : fetcher.Project) (teams : List fetcher.Team) :
    List fetcher.Team :=
  teams.flatMap fun team => List.replicate (team.Projects.count project.ID) team

/-- A world with no file and no library call made. -/
def emptyWorld : World := { files := fun _ => none, trace := [] }

/-! ### A sample account -/

/-- A team whose name needs sanitizing. -/
def sampleTeam1 : fetcher.Team :=
  { ID := 1, AccountID := 9, AccessLevel := "owner", Name := "Owners (EU)", Users := [],
    Projects := [] }

/-- A team whose name starts with `id`. -/
def sampleTeam2 : fetcher.Team :=
  { ID := 2, AccountID := 9, AccessLevel := "standard", Name := "ideas", Users := [],
    Projects := [] }

/-- An access token of the sample project. -/
def sampleToken : fetcher.AccessToken :=
  { AccessToken := "abc123", Name := "post server item", ProjectID := 10,
    RateLimitWindowCount := 5000, RateLimitWindowSize := 60, Scopes := ["post_server_item"],
    Token := "" }

/-- The project of the sample account. -/
def sampleProject : fetcher.Project :=
  { ID := 10, AccountID := 9, Name := "web.app", AccessTokens := [] }

/-- The user of the sample account. -/
def sampleUser : fetcher.User :=
  { ID := 7, Email := "ann@example.com", Username := "ann.lee", Teams := [] }

/-- An environment answering for the sample account; every body is the URL it
was requested from, which the unmarshal oracles recognise. The answer of
`team/1/users` is a parameter. -/
def sampleEnvWith (team1Users : List fetcher.TeamUsers) : Env :=
  { httpGet := fun url _ => some url
    unmarshalProjectResponse := fun body =>
      if body = "https://api.rollbar.com/api/1/projects" then
        some { Err := 0, Result := [sampleProject] }
      else none
    unmarshalAccessTokenResponse := fun body =>
      if body = "https://api.rollbar.com/api/1/project/10/access_tokens" then
        some { Err := 0, Result := [sampleToken] }
      else none
    unmarshalTeamResponse := fun body =>
      if body = "https://api.rollbar.com/api/1/teams" then
        some { Err := 0, Result := [sampleTeam1, sampleTeam2] }
      else none
    unmarshalTeamProjectsResponse := fun body =>
      if body = "https://api.rollbar.com/api/1/team/1/projects" then
        some { Err := 0, Result := [{ TeamID := 1, ProjectID := 10 }] }
      else if body = "https://api.rollbar.com/api/1/team/2/projects" then
        some { Err := 0, Result := [{ TeamID := 2, ProjectID := 10 }] }
      else none
    unmarshalTeamUsersResponse := fun body =>
      if body = "https://api.rollbar.com/api/1/team/1/users" then
        some { Err := 0, Result := team1Users }
      else if body = "https://api.rollbar.com/api/1/team/2/users" then
        some { Err := 0, Result := [] }
      else none
    unmarshalUserResponse := fun body =>
      if body = "https://api.rollbar.com/api/1/users" then
        some { Err := 0, Result := { Users := [sampleUser] } }
      else none
    unmarshalUserTeamResponse := fun body =>
      if body = "https://api.rollbar.com/api/1/user/7/teams" then
        some { Err := 0, Result := { Teams := [sampleTeam1] } }
      else none
    openFails := fun _ => false
    stat := fun path => if path = "/nowhere" then some os.StatError.notExist else none
    isLetterOrNumber := fun c => c.isAlphanum }

/-- The sample account with user 7 listed in team 1 on both sides. -/
def sampleEnv : Env := sampleEnvWith [{ TeamID := 1, UserID := 7 }]

/-- The sample account where `team/1/users` lists nobody although
`user/7/teams` lists team 1. -/
def lopsidedEnv : Env := sampleEnvWith []

/-- The rest of `s` after the prefix `p`, when `s` starts with `p`. -/
def stripPrefix : List Char → List Char → Option (List Char)
  | [], s => some s
  | _ :: _, [] => none
  | a :: p, b :: s => if a = b then stripPrefix p s else none

/-- The address `<type>.<name>` that a resource block declares. The block
opens with `resource "<type>" "<name>" {`; the type runs up to the next double
quote and the quoted name up to the next space. -/
def declaredAddress (block : String) : Option String :=
  match stripPrefix "resource \"".data block.data with
  | none => none
  | some rest =>
    let kind := rest.takeWhile (fun c => c ≠ '\"')
    match stripPrefix "\" \"".data (rest.dropWhile (fun c => c ≠ '\"')) with
    | none => none
    | some rest =>
      let quoted := rest.takeWhile (fun c => c ≠ ' ')
      if quoted.getLast? = some '\"' then some ⟨kind ++ '.' :: quoted.dropLast⟩ else none

/-- The address that a line `terraform import <address> <id>` targets: the
text between the command words and the next space. -/
def importedAddress (line : String) : Option String :=
  match stripPrefix "terraform import ".data line.data with
  | none => none
  | some rest => some ⟨rest.takeWhile (fun c => c ≠ ' ')⟩

/-- The `err` code that `json.Unmarshal` of a body into the given response
type yields, `none` when the body does not parse. -/
def unmarshalErr (env : Env) : Shape → String → Option Int
  | Shape.accessTokenResponse, body => (env.unmarshalAccessTokenResponse body).map (·.Err)
  | Shape.projectResponse, body => (env.unmarshalProjectResponse body).map (·.Err)
  | Shape.teamResponse, body => (env.unmarshalTeamResponse body).map (·.Err)
  | Shape.teamProjectsResponse, body => (env.unmarshalTeamProjectsResponse body).map (·.Err)
  | Shape.teamUsersResponse, body => (env.unmarshalTeamUsersResponse body).map (·.Err)
  | Shape.userResponse, body => (env.unmarshalUserResponse body).map (·.Err)
  | Shape.userTeamResponse, body => (env.unmarshalUserTeamResponse body).map (·.Err)

/-- An API request that goes wrong: the GET fails, or the body received does
not parse, or it parses with a non-zero `err` code. -/
def failedRequest (env : Env) (accessToken : String) : Event → Bool
  | Event.get url => (env.httpGet url accessToken).isNone
  | Event.unmarshal shape body => unmarshalErr env shape body != some 0

/-- The library calls made on the way from world `w` to `w'`. -/
def callsMade (w w' : World) : List Event :=
  w'.trace.drop w.trace.length

/-- What every function of the fetcher guarantees of a step `s` taken from
`w`: files are untouched, the trace grows, an exit has status 1, and a return
means that no request went wrong. -/
def FetchSpec (env : Env) (accessToken : String) {α : Type} (w : World) (s : Step α) : Prop :=
  s.world.files = w.files ∧
  ∃ calls, s.world.trace = w.trace ++ calls ∧
    match s with
    | Step.ok _ _ => ∀ e ∈ calls, failedRequest env accessToken e = false
    | Step.exit c _ => c = 1

/-- The second half of `generate`: the writes, once everything is fetched. -/
def writeAll (env : Env) (singleFile : Bool) (projects : List fetcher.Project)
    (teams : List fetcher.Team) (users : List fetcher.User) (outPath : String) (w : World) :
    Step Unit :=
  if singleFile then
    (writer.WriteProviderBlocks env (outPath ++ "/rollbar_account.tf") w).andThen fun _ w =>
    (writer.WriteTeams env teams (outPath ++ "/rollbar_account.tf") w).andThen fun _ w =>
    (writer.WriteProjects env projects teams (outPath ++ "/rollbar_account.tf") w).andThen fun _ w =>
    (writer.WriteProjectAccessTokens env projects (outPath ++ "/rollbar_account.tf") w).andThen fun _ w =>
    (writer.WriteUsers env users (outPath ++ "/rollbar_account.tf") w).andThen fun _ w =>
    (writer.WriteProjectAccessTokenImportCommands env projects (outPath ++ "/import") w).andThen fun _ w =>
    (writer.WriteProjectImportCommands env projects (outPath ++ "/import") w).andThen fun _ w =>
    (writer.WriteTeamImportCommands env teams (outPath ++ "/import") w).andThen fun _ w =>
    writer.WriteUserImportCommands env users (outPath ++ "/import") w
  else
    (writer.WriteProviderBlocks env (outPath ++ "/main.tf") w).andThen fun _ w =>
    (writer.WriteTeams env teams (outPath ++ "/teams.tf") w).andThen fun _ w =>
    (writer.WriteProjects env projects teams (outPath ++ "/projects.tf") w).andThen fun _ w =>
    (writer.WriteProjectAccessTokens env projects (outPath ++ "/access_tokens.tf") w).andThen fun _ w =>
    (writer.WriteUsers env users (outPath ++ "/users.tf") w).andThen fun _ w =>
    (writer.WriteProjectAccessTokenImportCommands env projects (outPath ++ "/import") w).andThen fun _ w =>
    (writer.WriteProjectImportCommands env projects (outPath ++ "/import") w).andThen fun _ w =>
    (writer.WriteTeamImportCommands env teams (outPath ++ "/import") w).andThen fun _ w =>
    writer.WriteUserImportCommands env users (outPath ++ "/import") w

/-- The team records that the endpoint `teams` answers with. -/
def teamsAnswer (env : Env) (accessToken : String) : Option (List fetcher.Team) :=
  (env.httpGet ("https://api.rollbar.com/api/1/" ++ "teams") accessToken).bind fun body =>
    (env.unmarshalTeamResponse body).map fun data => data.Result

/-- The user records that the endpoint `users` answers with. -/
def usersAnswer (env : Env) (accessToken : String) : Option (List fetcher.User) :=
  (env.httpGet ("https://api.rollbar.com/api/1/" ++ "users") accessToken).bind fun body =>
    (env.unmarshalUserResponse body).map fun data => data.Result.Users

/-- The user IDs that the endpoint `team/<id>/users` answers with. -/
def teamUsersAnswer (env : Env) (accessToken : String) (id : Int) : Option (List Int) :=
  (env.httpGet ("https://api.rollbar.com/api/1/" ++ ("team/" ++ strconv.Itoa id ++ "/users"))
    accessToken).bind fun body =>
    (env.unmarshalTeamUsersResponse body).map fun data => data.Result.map fun u => u.UserID

/-- The teams that the endpoint `user/<id>/teams` answers with. -/
def userTeamsAnswer (env : Env) (accessToken : String) (id : Int) :
    Option (List fetcher.Team) :=
  (env.httpGet ("https://api.rollbar.com/api/1/" ++ ("user/" ++ strconv.Itoa id ++ "/teams"))
    accessToken).bind fun body =>
    (env.unmarshalUserTeamResponse body).map fun data => data.Result.Teams

/-- The two sides of the team-user relationship agree: a user's ID is in a
team's `Users` exactly when a team with that team's ID is in the user's
`Teams`. -/
def teamUserConsistent (teams : List fetcher.Team) (users : List fetcher.User) : Prop :=
  ∀ T ∈ teams, ∀ U ∈ users, (U.ID ∈ T.Users ↔ ∃ T' ∈ U.Teams, T'.ID = T.ID)

/-- The claim's "the output path does not exist", read off `os.Stat`: the call
fails with `ENOENT` or with `ENOTDIR`. -/
def pathDoesNotExist (env : Env) (path : String) : Bool :=
  env.stat path = some os.StatError.notExist || env.stat path = some os.StatError.notDir

/-- The URLs of the GET requests among the given library calls. -/
def getRequests : List Event → List String
  | [] => []
  | Event.get url :: es => url :: getRequests es
  | Event.unmarshal _ _ :: es => getRequests es

/-- The sample account run with `-out plainfile/sub`, where `plainfile` is a
regular file: `os.Stat` of the path fails with `ENOTDIR`, and no file below it
can be opened. -/
def underAFileEnv : Env :=
  { sampleEnv with
    stat := fun path => if path = "plainfile/sub" then some os.StatError.notDir else none
    openFails := fun name => "plainfile/sub/".data.isPrefixOf name.data }

/-- The sample account when the request of `team/2/users` fails. -/
def failingEnv : Env :=
  { sampleEnv with
    httpGet := fun url _ =>
      if url = "https://api.rollbar.com/api/1/team/2/users" then none else some url }

/-! ## Theorems -/

open writer

theorem sanitize_data (l : List Char) :
    regexp.replaceClass forbiddenStrip [] (regexp.replaceClass forbiddenUnderscore ['_'] l) =
      l.flatMap fun c =>
        if c = ' ' ∨ c = '.' ∨ c = '/' ∨ c = ',' then ['_']
        else if c = '(' ∨ c = ')' ∨ c = '?' ∨ c = '\\' then []
        else [c] := by
  induction l with
  | nil => rfl
  | cons c cs ih =>
    by_cases h1 : forbiddenUnderscore c = true
    · have h1' : c = ' ' ∨ c = '.' ∨ c = '/' ∨ c = ',' := by
        simp [forbiddenUnderscore] at h1; tauto
      have hs : forbiddenStrip '_' = false := by decide
      simp [regexp.replaceClass, h1, h1', hs, ih]
    · have h1' : ¬ (c = ' ' ∨ c = '.' ∨ c = '/' ∨ c = ',') := by
        simp [forbiddenUnderscore] at h1; tauto
      by_cases h2 : forbiddenStrip c = true
      · have h2' : c = '(' ∨ c = ')' ∨ c = '?' ∨ c = '\\' := by
          simp [forbiddenStrip] at h2; tauto
        simp [regexp.replaceClass, h1, h1', h2, h2', ih]
      · have h2' : ¬ (c = '(' ∨ c = ')' ∨ c = '?' ∨ c = '\\') := by
          simp [forbiddenStrip] at h2; tauto
        simp [regexp.replaceClass, h1, h1', h2, h2', ih]

theorem sanitizeIdentifier_eq (s : String) :
    sanitizeIdentifier s = sanitizeDroppingBackslash s := by
  unfold sanitizeIdentifier sanitizeDroppingBackslash regexp.ReplaceAllString
  simp only []
  congr 1
  exact sanitize_data s.data


/-! ### Files -/

theorem World.append_append (w : World) (f : String) (a b : List String) :
    (w.append f a).append f b = w.append f (a ++ b) := by
  unfold World.append
  congr 1
  funext p
  by_cases h : p = f <;> simp [h]

theorem writeFile_eq (env : Env) (f : String) (w : World) :
    writeFile env f w = if env.openFails f then Step.exit 1 w else Step.ok f (w.append f []) := by
  unfold writeFile World.append
  simp

theorem WriteString_eq (f s : String) (w : World) : WriteString f s w = w.append f [s] := rfl

theorem foldl_WriteString {α : Type} (g : α → String) (f : String) (xs : List α) (w : World)
    (pre : List String) :
    xs.foldl (fun w x => WriteString f (g x) w) (w.append f pre) =
      w.append f (pre ++ xs.map g) := by
  induction xs generalizing pre with
  | nil => simp
  | cons x xs ih =>
    simp only [List.foldl_cons, List.map_cons]
    rw [WriteString_eq, World.append_append, ih]
    simp

theorem foldl_foldl_WriteString {α β : Type} (sub : α → List β) (g : α → β → String)
    (f : String) (xs : List α) (w : World) (pre : List String) :
    xs.foldl (fun w x => (sub x).foldl (fun w y => WriteString f (g x y) w) w) (w.append f pre) =
      w.append f (pre ++ xs.flatMap fun x => (sub x).map (g x)) := by
  induction xs generalizing pre with
  | nil => simp
  | cons x xs ih =>
    simp only [List.foldl_cons, List.flatMap_cons]
    rw [foldl_WriteString (g x) f (sub x) w pre, ih]
    simp

theorem written_append (w : World) (f : String) (chunks : List String) :
    written f w (w.append f chunks) = chunks := by
  simp [written, World.append]

theorem WriteProviderBlocks_eq (env : Env) (f : String) (w : World) :
    WriteProviderBlocks env f w =
      if env.openFails f then Step.exit 1 w
      else Step.ok () (w.append f
        ["terraform \x7b\n  required_providers \x7b\n    rollbar = \x7b\n" ++
          "      source = \"rollbar/rollbar\"\n      version = \"1.0.6\"\n    \x7d\n  \x7d\n\x7d\n\n" ++
          "provider \"rollbar\" \x7b\n\x7d" ++ "\n\n"]) := by
  unfold WriteProviderBlocks
  rw [writeFile_eq]
  split <;> simp [Step.andThen, WriteString_eq, World.append_append]

theorem WriteTeams_eq (env : Env) (teams : List fetcher.Team) (f : String) (w : World) :
    WriteTeams env teams f w =
      if env.openFails f then Step.exit 1 w
      else Step.ok () (w.append f (teams.map fun team =>
        "resource \"rollbar_team\" \"" ++ sanitizeIdentifier team.Name ++ "\" \x7b" ++ "\n" ++
        "  name = \"" ++ team.Name ++ "\"" ++ "\n" ++ "\x7d" ++ "\n\n")) := by
  unfold WriteTeams
  rw [writeFile_eq]
  split
  · simp [Step.andThen]
  · simp only [Step.andThen]
    rw [foldl_WriteString]
    simp

theorem WriteProjects_eq (env : Env) (projects : List fetcher.Project)
    (teams : List fetcher.Team) (f : String) (w : World) :
    WriteProjects env projects teams f w =
      if env.openFails f then Step.exit 1 w
      else Step.ok () (w.append f (projects.map fun project => projectResource project teams)) := by
  unfold WriteProjects
  rw [writeFile_eq]
  split
  · simp [Step.andThen]
  · simp only [Step.andThen]
    rw [foldl_WriteString]
    simp

theorem WriteUsers_eq (env : Env) (users : List fetcher.User) (f : String) (w : World) :
    WriteUsers env users f w =
      if env.openFails f then Step.exit 1 w
      else Step.ok () (w.append f (users.map userResource)) := by
  unfold WriteUsers
  rw [writeFile_eq]
  split
  · simp [Step.andThen]
  · simp only [Step.andThen]
    rw [foldl_WriteString]
    simp

theorem WriteProjectAccessTokens_eq (env : Env) (projects : List fetcher.Project)
    (f : String) (w : World) :
    WriteProjectAccessTokens env projects f w =
      if env.openFails f then Step.exit 1 w
      else Step.ok () (w.append f (projects.flatMap fun project =>
        project.AccessTokens.map fun accessToken =>
          "resource \"rollbar_project_access_token\" \"" ++
          sanitizeIdentifier project.Name ++ "_" ++
          sanitizeIdentifier accessToken.Name ++ "\" \x7b" ++ "\n" ++
          "  name = \"" ++ accessToken.Name ++ "\"" ++ "\n" ++
          "  project_id = rollbar_project." ++ sanitizeIdentifier project.Name ++ ".id" ++ "\n" ++
          "  depends_on = [rollbar_project." ++ sanitizeIdentifier project.Name ++ "]" ++ "\n" ++
          "  rate_limit_window_size = " ++ strconv.Itoa accessToken.RateLimitWindowSize ++ "\n" ++
          "  rate_limit_window_count = " ++ strconv.Itoa accessToken.RateLimitWindowCount ++ "\n" ++
          "\x7d" ++ "\n\n")) := by
  unfold WriteProjectAccessTokens
  rw [writeFile_eq]
  split
  · simp [Step.andThen]
  · simp only [Step.andThen]
    rw [foldl_foldl_WriteString (fun p : fetcher.Project => p.AccessTokens)]
    simp

theorem WriteProjectAccessTokenImportCommands_eq (env : Env) (projects : List fetcher.Project)
    (f : String) (w : World) :
    WriteProjectAccessTokenImportCommands env projects f w =
      if env.openFails f then Step.exit 1 w
      else Step.ok () (w.append f (projects.flatMap fun project =>
        project.AccessTokens.map fun accessToken =>
          "terraform import rollbar_project_access_token." ++
          sanitizeIdentifier project.Name ++ "_" ++
          sanitizeIdentifier accessToken.Name ++ " " ++ strconv.Itoa project.ID ++
          "/" ++ accessToken.AccessToken ++ "\n")) := by
  unfold WriteProjectAccessTokenImportCommands
  rw [writeFile_eq]
  split
  · simp [Step.andThen]
  · simp only [Step.andThen]
    rw [foldl_foldl_WriteString (fun p : fetcher.Project => p.AccessTokens)]
    simp

theorem WriteProjectImportCommands_eq (env : Env) (projects : List fetcher.Project)
    (f : String) (w : World) :
    WriteProjectImportCommands env projects f w =
      if env.openFails f then Step.exit 1 w
      else Step.ok () (w.append f (projects.map fun project =>
        "terraform import rollbar_project." ++
        sanitizeIdentifier project.Name ++ " " ++ strconv.Itoa project.ID ++ "\n")) := by
  unfold WriteProjectImportCommands
  rw [writeFile_eq]
  split
  · simp [Step.andThen]
  · simp only [Step.andThen]
    rw [foldl_WriteString]
    simp

theorem WriteTeamImportCommands_eq (env : Env) (teams : List fetcher.Team)
    (f : String) (w : World) :
    WriteTeamImportCommands env teams f w =
      if env.openFails f then Step.exit 1 w
      else Step.ok () (w.append f (teams.map fun team =>
        "terraform import rollbar_team." ++
        sanitizeIdentifier team.Name ++ " " ++ strconv.Itoa team.ID ++ "\n")) := by
  unfold WriteTeamImportCommands
  rw [writeFile_eq]
  split
  · simp [Step.andThen]
  · simp only [Step.andThen]
    rw [foldl_WriteString]
    simp

theorem WriteUserImportCommands_eq (env : Env) (users : List fetcher.User)
    (f : String) (w : World) :
    WriteUserImportCommands env users f w =
      if env.openFails f then Step.exit 1 w
      else Step.ok () (w.append f (users.map fun user =>
        "terraform import rollbar_user." ++
        sanitizeIdentifier user.Username ++ " " ++ strconv.Itoa user.ID ++ "\n")) := by
  unfold WriteUserImportCommands
  rw [writeFile_eq]
  split
  · simp [Step.andThen]
  · simp only [Step.andThen]
    rw [foldl_WriteString]
    simp

/-! ### Strings -/

theorem String.join_replicate_succ (n : Nat) (r : String) :
    String.join (List.replicate (n + 1) r) = r ++ String.join (List.replicate n r) := by
  apply String.ext
  simp [List.replicate_succ]

theorem String.append_left_cancel_iff (a b c : String) : a ++ b = a ++ c ↔ b = c := by
  constructor
  · intro h
    have h' := congrArg String.data h
    simp only [String.data_append, List.append_cancel_left_eq] at h'
    exact String.ext h'
  · intro h
    rw [h]

/-! ### The text of a project block -/

theorem teamProjects_foldl (id : Int) (r : String) (ps : List Int) (acc : String) :
    ps.foldl (fun acc teamProject => if teamProject = id then acc ++ r else acc) acc =
      acc ++ String.join (List.replicate (ps.count id) r) := by
  induction ps generalizing acc with
  | nil =>
    apply String.ext
    simp
  | cons p ps ih =>
    simp only [List.foldl_cons]
    rw [ih]
    by_cases h : p = id
    · subst h
      simp only [if_true, List.count_cons_self, String.join_replicate_succ]
      apply String.ext
      simp
    · have h' : ¬ (p == id) = true := by simpa using h
      simp [h, List.count_cons, h']

theorem teams_foldl (project : fetcher.Project) (teams : List fetcher.Team) (acc : String) :
    teams.foldl (fun projectTeamIDs team =>
      team.Projects.foldl (fun projectTeamIDs teamProject =>
        if teamProject = project.ID then
          projectTeamIDs ++ ("rollbar_team." ++ sanitizeIdentifier team.Name ++ ".id, ")
        else projectTeamIDs) projectTeamIDs) acc =
      acc ++ String.join ((referencedTeams project teams).map fun team =>
        "rollbar_team." ++ sanitizeIdentifier team.Name ++ ".id, ") := by
  induction teams generalizing acc with
  | nil =>
    apply String.ext
    simp [referencedTeams]
  | cons t ts ih =>
    simp only [List.foldl_cons]
    rw [teamProjects_foldl, ih]
    apply String.ext
    simp [referencedTeams, List.flatMap_cons, Function.comp_def]

theorem projectTeamIDs_eq (project : fetcher.Project) (teams : List fetcher.Team) :
    projectTeamIDs project teams =
      "[" ++ String.join ((referencedTeams project teams).map fun team =>
        "rollbar_team." ++ sanitizeIdentifier team.Name ++ ".id, ") ++ "]" := by
  unfold projectTeamIDs
  simp only []
  rw [teams_foldl]

theorem projectTeamIDs_empty_iff (project : fetcher.Project) (teams : List fetcher.Team) :
    projectTeamIDs project teams = "[]" ↔ referencedTeams project teams = [] := by
  rw [projectTeamIDs_eq]
  constructor
  · intro h
    cases hr : referencedTeams project teams with
    | nil => rfl
    | cons t ts =>
      rw [hr] at h
      have h' := congrArg (fun s => s.data.length) h
      simp at h'
  · intro h
    rw [h]
    rfl

theorem mem_referencedTeams (project : fetcher.Project) (teams : List fetcher.Team)
    (team : fetcher.Team) :
    team ∈ referencedTeams project teams ↔ team ∈ teams ∧ project.ID ∈ team.Projects := by
  unfold referencedTeams
  simp only [List.mem_flatMap, List.mem_replicate]
  constructor
  · rintro ⟨t, ht, hc, rfl⟩
    exact ⟨ht, List.count_pos_iff.mp (Nat.pos_of_ne_zero hc)⟩
  · rintro ⟨ht, hp⟩
    exact ⟨team, ht, Nat.ne_of_gt (List.count_pos_iff.mpr hp), rfl⟩


theorem projectResource_eq (project : fetcher.Project) (teams : List fetcher.Team) :
    projectResource project teams =
      if referencedTeams project teams = [] then
        "resource \"rollbar_project\" \"" ++ sanitizeIdentifier project.Name ++ "\" \x7b\n" ++
        "  name = \"" ++ project.Name ++ "\"\n" ++
        "\x7d\n\n"
      else
        "resource \"rollbar_project\" \"" ++ sanitizeIdentifier project.Name ++ "\" \x7b\n" ++
        "  name = \"" ++ project.Name ++ "\"\n" ++
        "  team_ids = [" ++ String.join ((referencedTeams project teams).map fun team =>
            "rollbar_team." ++ sanitizeIdentifier team.Name ++ ".id, ") ++ "]\n" ++
        "  depends_on = " ++ strings.ReplaceAll ("[" ++
            String.join ((referencedTeams project teams).map fun team =>
              "rollbar_team." ++ sanitizeIdentifier team.Name ++ ".id, ") ++ "]") ".id" "" ++ "\n" ++
        "\x7d\n\n" := by
  unfold projectResource
  simp only []
  by_cases h : referencedTeams project teams = []
  · have h' : projectTeamIDs project teams = "[]" := (projectTeamIDs_empty_iff _ _).mpr h
    rw [if_neg (by simpa using h'), if_pos h]
    apply String.ext
    simp
  · have h' : projectTeamIDs project teams ≠ "[]" := fun e => h ((projectTeamIDs_empty_iff _ _).mp e)
    rw [if_pos h', if_neg h, projectTeamIDs_eq]
    apply String.ext
    simp

theorem referencedTeams_filter (project : fetcher.Project) (teams : List fetcher.Team) :
    referencedTeams project teams =
      (teams.filter fun T => project.ID ∈ T.Projects).flatMap fun T =>
        List.replicate (T.Projects.count project.ID) T := by
  unfold referencedTeams
  induction teams with
  | nil => rfl
  | cons t ts ih =>
    by_cases h : project.ID ∈ t.Projects
    · simp only [List.flatMap_cons, ih, List.filter_cons, h, decide_True, if_true]
    · have hc : t.Projects.count project.ID = 0 := List.count_eq_zero.mpr h
      simp only [List.flatMap_cons, ih, List.filter_cons, h, decide_False, hc,
        List.replicate_zero, List.nil_append]
      simp

/-- C4. `WriteProjects` appends one `rollbar_project` block per project, in
input order. The block of project `P` has a `team_ids` line listing
`rollbar_team.<sanitizeIdentifier(T.Name)>.id` for the referenced teams, which
are the teams `T`, in team order, whose project list holds `P.ID` (a team is
repeated when its list holds `P.ID` more than once); when no
team's list holds `P.ID` the block is the header, the name line and the
closing brace, with no `team_ids` and no `depends_on` line. -/
theorem C4_WriteProjects_blocks (env : Env) (projects : List fetcher.Project)
    (teams : List fetcher.Team) (filename : String) (w : World)
    (hopen : env.openFails filename = false) :
    ∃ w', WriteProjects env projects teams filename w = Step.ok () w' ∧
      written filename w w' = projects.map (fun P =>
        if referencedTeams P teams = [] then
          "resource \"rollbar_project\" \"" ++ sanitizeIdentifier P.Name ++ "\" \x7b\n" ++
          "  name = \"" ++ P.Name ++ "\"\n" ++
          "\x7d\n\n"
        else
          "resource \"rollbar_project\" \"" ++ sanitizeIdentifier P.Name ++ "\" \x7b\n" ++
          "  name = \"" ++ P.Name ++ "\"\n" ++
          "  team_ids = [" ++ String.join ((referencedTeams P teams).map fun T =>
              "rollbar_team." ++ sanitizeIdentifier T.Name ++ ".id, ") ++ "]\n" ++
          "  depends_on = " ++ strings.ReplaceAll ("[" ++
              String.join ((referencedTeams P teams).map fun T =>
                "rollbar_team." ++ sanitizeIdentifier T.Name ++ ".id, ") ++ "]") ".id" "" ++ "\n" ++
          "\x7d\n\n") ∧
      (∀ P T, T ∈ teams → (T ∈ referencedTeams P teams ↔ P.ID ∈ T.Projects)) ∧
      (∀ P, (referencedTeams P teams = [] ↔ ∀ T ∈ teams, P.ID ∉ T.Projects)) ∧
      (∀ P, referencedTeams P teams =
        (teams.filter fun T => P.ID ∈ T.Projects).flatMap fun T =>
          List.replicate (T.Projects.count P.ID) T) := by
  refine ⟨_, by rw [WriteProjects_eq, hopen]; rfl, ?_, ?_, ?_, ?_⟩
  · rw [written_append]
    apply List.map_congr_left
    intro P _
    exact projectResource_eq P teams
  · intro P T hT
    rw [mem_referencedTeams]
    exact ⟨fun h => h.2, fun h => ⟨hT, h⟩⟩
  · intro P
    constructor
    · intro h T hT hP
      have : T ∈ referencedTeams P teams := (mem_referencedTeams P teams T).mpr ⟨hT, hP⟩
      rw [h] at this
      exact List.not_mem_nil _ this
    · intro h
      apply List.eq_nil_iff_forall_not_mem.mpr
      intro T hT
      have := (mem_referencedTeams P teams T).mp hT
      exact h T this.1 this.2
  · intro P
    exact referencedTeams_filter P teams

theorem C4_WriteProjects_blocks_witness :
    sampleEnv.openFails "projects.tf" = false ∧
    ∃ w', WriteProjects sampleEnv [sampleProject, { sampleProject with ID := 11, Name := "api" }]
        [{ sampleTeam1 with Projects := [10] }, sampleTeam2] "projects.tf" emptyWorld =
          Step.ok () w' ∧
      written "projects.tf" emptyWorld w' =
        ["resource \"rollbar_project\" \"web_app\" \x7b\n  name = \"web.app\"\n" ++
          "  team_ids = [rollbar_team.Owners_EU.id, ]\n" ++
          "  depends_on = [rollbar_team.Owners_EU, ]\n\x7d\n\n",
         "resource \"rollbar_project\" \"api\" \x7b\n  name = \"api\"\n\x7d\n\n"] := by
  obtain ⟨w', h1, h2, -⟩ := C4_WriteProjects_blocks sampleEnv
    [sampleProject, { sampleProject with ID := 11, Name := "api" }]
    [{ sampleTeam1 with Projects := [10] }, sampleTeam2] "projects.tf" emptyWorld rfl
  exact ⟨rfl, w', h1, by rw [h2]; decide⟩

/-! ### The text of a user block -/

theorem userTeams_foldl (teams : List fetcher.Team) (acc : String) :
    teams.foldl (fun teams team =>
      teams ++ ("rollbar_team." ++ sanitizeIdentifier team.Name ++ ".id, ")) acc =
      acc ++ String.join (teams.map fun team =>
        "rollbar_team." ++ sanitizeIdentifier team.Name ++ ".id, ") := by
  induction teams generalizing acc with
  | nil =>
    apply String.ext
    simp
  | cons t ts ih =>
    simp only [List.foldl_cons]
    rw [ih]
    apply String.ext
    simp

theorem userResource_eq (user : fetcher.User) :
    userResource user =
      "resource \"rollbar_user\" \"" ++ sanitizeIdentifier user.Username ++ "\" \x7b\n" ++
      (if user.Email = "" then "" else "  email = \"" ++ user.Email ++ "\"\n") ++
      (if user.Teams = [] then ""
        else "  team_ids = \"[" ++ String.join (user.Teams.map fun T =>
          "rollbar_team." ++ sanitizeIdentifier T.Name ++ ".id, ") ++ "]\"\n") ++
      "\x7d\n\n" := by
  unfold userResource
  simp only []
  rw [userTeams_foldl]
  have hlen : (user.Teams.length > 0) ↔ ¬ user.Teams = [] := by
    cases user.Teams <;> simp
  by_cases he : user.Email = "" <;> by_cases ht : user.Teams = [] <;>
    simp only [hlen, he, ht, ne_eq, not_true_eq_false, not_false_eq_true, if_true, if_false] <;>
    apply String.ext <;> simp

/-- C9. `WriteUsers` appends one `rollbar_user` block per user, in input
order, named `sanitizeIdentifier(Username)`. The block has an email line
exactly when the user's `Email` is not empty, and a `team_ids` line exactly
when the user has a team; that line lists
`rollbar_team.<sanitizeIdentifier(T.Name)>.id` once for each team `T` of the
user, in order. -/
theorem C9_WriteUsers_blocks (env : Env) (users : List fetcher.User) (filename : String)
    (w : World) (hopen : env.openFails filename = false) :
    ∃ w', WriteUsers env users filename w = Step.ok () w' ∧
      written filename w w' = users.map (fun U =>
        "resource \"rollbar_user\" \"" ++ sanitizeIdentifier U.Username ++ "\" \x7b\n" ++
        (if U.Email = "" then "" else "  email = \"" ++ U.Email ++ "\"\n") ++
        (if U.Teams = [] then ""
          else "  team_ids = \"[" ++ String.join (U.Teams.map fun T =>
            "rollbar_team." ++ sanitizeIdentifier T.Name ++ ".id, ") ++ "]\"\n") ++
        "\x7d\n\n") := by
  refine ⟨_, by rw [WriteUsers_eq, hopen]; rfl, ?_⟩
  rw [written_append]
  apply List.map_congr_left
  intro U _
  exact userResource_eq U

theorem C9_WriteUsers_blocks_witness :
    sampleEnv.openFails "users.tf" = false ∧
    ∃ w', WriteUsers sampleEnv
        [{ sampleUser with Teams := [sampleTeam1, sampleTeam2] },
         { sampleUser with Email := "", Username := "bob" }] "users.tf" emptyWorld =
          Step.ok () w' ∧
      written "users.tf" emptyWorld w' =
        ["resource \"rollbar_user\" \"ann_lee\" \x7b\n  email = \"ann@example.com\"\n" ++
          "  team_ids = \"[rollbar_team.Owners_EU.id, rollbar_team.ideas.id, ]\"\n\x7d\n\n",
         "resource \"rollbar_user\" \"bob\" \x7b\n\x7d\n\n"] := by
  obtain ⟨w', h1, h2⟩ := C9_WriteUsers_blocks sampleEnv
    [{ sampleUser with Teams := [sampleTeam1, sampleTeam2] },
     { sampleUser with Email := "", Username := "bob" }] "users.tf" emptyWorld rfl
  exact ⟨rfl, w', h1, by rw [h2]; decide⟩

/-! ### Sanitized names -/

/-- C1. The output of `sanitizeIdentifier` is not always a valid identifier:
the team name `R&D` is returned unchanged and holds `&`; a name that starts
with a digit keeps it; a name made of stripped characters becomes empty. -/
theorem C1_sanitizeIdentifier_not_always_valid :
    sanitizeIdentifier "R&D" = "R&D" ∧ validIdentifier (sanitizeIdentifier "R&D") = false ∧
    sanitizeIdentifier "2nd line" = "2nd_line" ∧
      validIdentifier (sanitizeIdentifier "2nd line") = false ∧
    sanitizeIdentifier "(?)" = "" ∧ validIdentifier (sanitizeIdentifier "(?)") = false := by
  decide

/-- C2, as stated, fails: a backslash is not kept, it is removed. -/
theorem C2_backslash_is_removed :
    sanitizeIdentifier "a\\b" = "ab" ∧
      ¬ (sanitizeIdentifier "a\\b" = sanitizeAsSpecified "a\\b") := by
  decide

theorem sanitizeDroppingBackslash_clean (s : String) (c : Char)
    (hc : c ∈ (sanitizeDroppingBackslash s).data) :
    c ≠ ' ' ∧ c ≠ '.' ∧ c ≠ '/' ∧ c ≠ ',' ∧ c ≠ '(' ∧ c ≠ ')' ∧ c ≠ '?' ∧ c ≠ '\\' := by
  unfold sanitizeDroppingBackslash at hc
  simp only [List.mem_flatMap] at hc
  obtain ⟨x, -, hx⟩ := hc
  split at hx
  · simp only [List.mem_singleton] at hx
    subst hx
    decide
  · rename_i h1
    split at hx
    · simp at hx
    · rename_i h2
      simp only [List.mem_singleton] at hx
      subst hx
      simp only [not_or] at h1 h2
      tauto

/-- C2, amended. `sanitizeIdentifier(s)` is `s` with every space, dot, slash
and comma replaced by one underscore and every `(`, `)`, `?` and backslash
removed, the other characters kept in their order; the result holds no space,
dot, slash, comma, parenthesis, question mark or backslash. -/
theorem C2_sanitizeIdentifier_amended (s : String) :
    sanitizeIdentifier s = sanitizeDroppingBackslash s ∧
    ∀ c ∈ (sanitizeIdentifier s).data,
      c ≠ ' ' ∧ c ≠ '.' ∧ c ≠ '/' ∧ c ≠ ',' ∧ c ≠ '(' ∧ c ≠ ')' ∧ c ≠ '?' ∧ c ≠ '\\' := by
  refine ⟨sanitizeIdentifier_eq s, ?_⟩
  intro c hc
  rw [sanitizeIdentifier_eq] at hc
  exact sanitizeDroppingBackslash_clean s c hc

theorem sanitizeIdentifier_no_space (s : String) : ' ' ∉ (sanitizeIdentifier s).data := by
  intro h
  rw [sanitizeIdentifier_eq] at h
  exact (sanitizeDroppingBackslash_clean s _ h).1 rfl

/-! ### Addresses -/

theorem stripPrefix_append (p s : List Char) : stripPrefix p (p ++ s) = some s := by
  induction p with
  | nil => cases s <;> rfl
  | cons a p ih => simp [stripPrefix, ih]

theorem takeWhile_stop {p : Char → Bool} (l : List Char) (d : Char) (r : List Char)
    (hl : ∀ c ∈ l, p c = true) (hd : p d = false) :
    (l ++ d :: r).takeWhile p = l := by
  induction l with
  | nil => simp [List.takeWhile, hd]
  | cons a l ih =>
    have ha : p a = true := hl a (List.mem_cons_self _ _)
    simp only [List.cons_append, List.takeWhile_cons, ha, if_true]
    rw [ih (fun c hc => hl c (List.mem_cons_of_mem _ hc))]

theorem dropWhile_stop {p : Char → Bool} (l : List Char) (d : Char) (r : List Char)
    (hl : ∀ c ∈ l, p c = true) (hd : p d = false) :
    (l ++ d :: r).dropWhile p = d :: r := by
  induction l with
  | nil => simp [List.dropWhile, hd]
  | cons a l ih =>
    have ha : p a = true := hl a (List.mem_cons_self _ _)
    simp only [List.cons_append, List.dropWhile_cons, ha, if_true]
    rw [ih (fun c hc => hl c (List.mem_cons_of_mem _ hc))]

theorem declaredAddress_block (kind name rest : String)
    (hk : '\"' ∉ kind.data) (hn : ' ' ∉ name.data) :
    declaredAddress ("resource \"" ++ kind ++ "\" \"" ++ name ++ "\" " ++ rest) =
      some (kind ++ "." ++ name) := by
  have hdata : ("resource \"" ++ kind ++ "\" \"" ++ name ++ "\" " ++ rest).data =
      "resource \"".data ++ (kind.data ++ '\"' :: (' ' :: '\"' :: (name.data ++ ['\"']) ++
        ' ' :: rest.data)) := by
    simp
  have hk' : ∀ c ∈ kind.data, (fun c : Char => decide (c ≠ '\"')) c = true := by
    intro c hc
    simp only [decide_eq_true_eq]
    intro h
    exact hk (h ▸ hc)
  have hn' : ∀ c ∈ name.data ++ ['\"'], (fun c : Char => decide (c ≠ ' ')) c = true := by
    intro c hc
    simp only [decide_eq_true_eq]
    intro h
    rcases List.mem_append.mp hc with h1 | h1
    · exact hn (h ▸ h1)
    · rw [h] at h1
      revert h1
      decide
  unfold declaredAddress
  rw [hdata, stripPrefix_append]
  simp only []
  rw [takeWhile_stop _ _ _ hk' (by decide), dropWhile_stop _ _ _ hk' (by decide)]
  have h2 : stripPrefix "\" \"".data ('\"' :: (' ' :: '\"' :: (name.data ++ ['\"']) ++
      ' ' :: rest.data)) = some ((name.data ++ ['\"']) ++ ' ' :: rest.data) := by
    simp [stripPrefix]
  rw [h2]
  simp only []
  rw [takeWhile_stop _ _ _ hn' (by decide)]
  rw [List.getLast?_concat, if_pos rfl, List.dropLast_concat]
  congr 1
  apply String.ext
  simp

theorem importedAddress_line (address rest : String) (ha : ' ' ∉ address.data) :
    importedAddress ("terraform import " ++ address ++ " " ++ rest) = some address := by
  have hdata : ("terraform import " ++ address ++ " " ++ rest).data =
      "terraform import ".data ++ (address.data ++ ' ' :: rest.data) := by
    simp
  have ha' : ∀ c ∈ address.data, (fun c : Char => decide (c ≠ ' ')) c = true := by
    intro c hc
    simp only [decide_eq_true_eq]
    intro h
    exact ha (h ▸ hc)
  unfold importedAddress
  rw [hdata, stripPrefix_append]
  simp only []
  rw [takeWhile_stop _ _ _ ha' (by decide)]

theorem declaredAddress_of_shape (block kind name rest : String)
    (hk : '\"' ∉ kind.data) (hn : ' ' ∉ name.data)
    (hb : block.data = ("resource \"" ++ kind ++ "\" \"" ++ name ++ "\" " ++ rest).data) :
    declaredAddress block = some (kind ++ "." ++ name) := by
  rw [String.ext hb]
  exact declaredAddress_block kind name rest hk hn

theorem importedAddress_of_shape (line address rest : String) (ha : ' ' ∉ address.data)
    (hb : line.data = ("terraform import " ++ address ++ " " ++ rest).data) :
    importedAddress line = some address := by
  rw [String.ext hb]
  exact importedAddress_line address rest ha

theorem no_space_typed (kind name : String) (hk : ' ' ∉ kind.data) (hn : ' ' ∉ name.data) :
    ' ' ∉ (kind ++ "." ++ name).data := by
  simp only [String.data_append, List.mem_append, not_or]
  exact ⟨⟨hk, by decide⟩, hn⟩

theorem no_space_token_name (a b : String) :
    ' ' ∉ (sanitizeIdentifier a ++ "_" ++ sanitizeIdentifier b).data := by
  simp only [String.data_append, List.mem_append, not_or]
  exact ⟨⟨sanitizeIdentifier_no_space a, by decide⟩, sanitizeIdentifier_no_space b⟩

set_option maxRecDepth 8000 in
theorem tokenBlock_address (P : fetcher.Project) (A : fetcher.AccessToken) :
    declaredAddress ("resource \"rollbar_project_access_token\" \"" ++
      sanitizeIdentifier P.Name ++ "_" ++
      sanitizeIdentifier A.Name ++ "\" \x7b" ++ "\n" ++
      "  name = \"" ++ A.Name ++ "\"" ++ "\n" ++
      "  project_id = rollbar_project." ++ sanitizeIdentifier P.Name ++ ".id" ++ "\n" ++
      "  depends_on = [rollbar_project." ++ sanitizeIdentifier P.Name ++ "]" ++ "\n" ++
      "  rate_limit_window_size = " ++ strconv.Itoa A.RateLimitWindowSize ++ "\n" ++
      "  rate_limit_window_count = " ++ strconv.Itoa A.RateLimitWindowCount ++ "\n" ++
      "\x7d" ++ "\n\n") =
    some ("rollbar_project_access_token." ++ sanitizeIdentifier P.Name ++ "_" ++
      sanitizeIdentifier A.Name) := by
  rw [declaredAddress_of_shape _ "rollbar_project_access_token"
    (sanitizeIdentifier P.Name ++ "_" ++ sanitizeIdentifier A.Name)
    ("\x7b\n  name = \"" ++ A.Name ++ "\"\n" ++
      "  project_id = rollbar_project." ++ sanitizeIdentifier P.Name ++ ".id\n" ++
      "  depends_on = [rollbar_project." ++ sanitizeIdentifier P.Name ++ "]\n" ++
      "  rate_limit_window_size = " ++ strconv.Itoa A.RateLimitWindowSize ++ "\n" ++
      "  rate_limit_window_count = " ++ strconv.Itoa A.RateLimitWindowCount ++ "\n" ++
      "\x7d\n\n") (by decide) (no_space_token_name _ _) (by simp)]
  exact congrArg some (String.ext (by simp))

theorem tokenLine_address (P : fetcher.Project) (A : fetcher.AccessToken) :
    importedAddress ("terraform import rollbar_project_access_token." ++
      sanitizeIdentifier P.Name ++ "_" ++
      sanitizeIdentifier A.Name ++ " " ++ strconv.Itoa P.ID ++
      "/" ++ A.AccessToken ++ "\n") =
    some ("rollbar_project_access_token." ++ sanitizeIdentifier P.Name ++ "_" ++
      sanitizeIdentifier A.Name) := by
  rw [importedAddress_of_shape _
    ("rollbar_project_access_token." ++ sanitizeIdentifier P.Name ++ "_" ++
      sanitizeIdentifier A.Name)
    (strconv.Itoa P.ID ++ "/" ++ A.AccessToken ++ "\n") ?_ (by simp)]
  simp only [String.data_append, List.mem_append, not_or]
  exact ⟨⟨⟨by decide, sanitizeIdentifier_no_space _⟩, by decide⟩,
    sanitizeIdentifier_no_space _⟩

/-- C3. For teams, projects, project access tokens and users, the addresses
`<type>.<name>` declared by the blocks that the resource writer appends are,
element by element, the addresses targeted by the `terraform import` lines
that the matching import-command writer appends on the same input; both
sequences have one address per input element. -/
theorem C3_import_targets_are_declared (env : Env) (teams : List fetcher.Team)
    (projects : List fetcher.Project) (users : List fetcher.User) (tf imp : String) (w : World)
    (htf : env.openFails tf = false) (himp : env.openFails imp = false) :
    ((written tf w (WriteTeams env teams tf w).world).map declaredAddress =
        (written imp w (WriteTeamImportCommands env teams imp w).world).map importedAddress ∧
      (written tf w (WriteTeams env teams tf w).world).map declaredAddress =
        teams.map fun T => some ("rollbar_team." ++ sanitizeIdentifier T.Name)) ∧
    ((written tf w (WriteProjects env projects teams tf w).world).map declaredAddress =
        (written imp w (WriteProjectImportCommands env projects imp w).world).map
          importedAddress ∧
      (written tf w (WriteProjects env projects teams tf w).world).map declaredAddress =
        projects.map fun P => some ("rollbar_project." ++ sanitizeIdentifier P.Name)) ∧
    ((written tf w (WriteProjectAccessTokens env projects tf w).world).map declaredAddress =
        (written imp w (WriteProjectAccessTokenImportCommands env projects imp w).world).map
          importedAddress ∧
      (written tf w (WriteProjectAccessTokens env projects tf w).world).map declaredAddress =
        projects.flatMap fun P => P.AccessTokens.map fun A =>
          some ("rollbar_project_access_token." ++ sanitizeIdentifier P.Name ++ "_" ++
            sanitizeIdentifier A.Name)) ∧
    ((written tf w (WriteUsers env users tf w).world).map declaredAddress =
        (written imp w (WriteUserImportCommands env users imp w).world).map importedAddress ∧
      (written tf w (WriteUsers env users tf w).world).map declaredAddress =
        users.map fun U => some ("rollbar_user." ++ sanitizeIdentifier U.Username)) := by
  have teamsR : (written tf w (WriteTeams env teams tf w).world).map declaredAddress =
      teams.map fun T => some ("rollbar_team." ++ sanitizeIdentifier T.Name) := by
    rw [WriteTeams_eq, htf]
    simp only [Bool.false_eq_true, if_false, Step.world, written_append, List.map_map]
    apply List.map_congr_left
    intro T _
    simp only [Function.comp]
    rw [declaredAddress_of_shape _ "rollbar_team" (sanitizeIdentifier T.Name)
      ("\x7b\n  name = \"" ++ T.Name ++ "\"\n\x7d\n\n") (by decide)
      (sanitizeIdentifier_no_space _) (by simp)]
    exact congrArg some (String.ext (by simp))
  have teamsI : (written imp w (WriteTeamImportCommands env teams imp w).world).map
      importedAddress = teams.map fun T => some ("rollbar_team." ++ sanitizeIdentifier T.Name) := by
    rw [WriteTeamImportCommands_eq, himp]
    simp only [Bool.false_eq_true, if_false, Step.world, written_append, List.map_map]
    apply List.map_congr_left
    intro T _
    simp only [Function.comp]
    exact importedAddress_of_shape _ _ (strconv.Itoa T.ID ++ "\n")
      (no_space_typed "rollbar_team" _ (by decide) (sanitizeIdentifier_no_space _)) (by simp)
  have projectsR : (written tf w (WriteProjects env projects teams tf w).world).map
      declaredAddress =
      projects.map fun P => some ("rollbar_project." ++ sanitizeIdentifier P.Name) := by
    rw [WriteProjects_eq, htf]
    simp only [Bool.false_eq_true, if_false, Step.world, written_append, List.map_map]
    apply List.map_congr_left
    intro P _
    simp only [Function.comp]
    rw [projectResource_eq]
    split
    · rw [declaredAddress_of_shape _ "rollbar_project" (sanitizeIdentifier P.Name)
        ("\x7b\n  name = \"" ++ P.Name ++ "\"\n\x7d\n\n") (by decide)
        (sanitizeIdentifier_no_space _) (by simp)]
      exact congrArg some (String.ext (by simp))
    · rw [declaredAddress_of_shape _ "rollbar_project" (sanitizeIdentifier P.Name)
        ("\x7b\n  name = \"" ++ P.Name ++ "\"\n" ++
          "  team_ids = [" ++ String.join ((referencedTeams P teams).map fun team =>
            "rollbar_team." ++ sanitizeIdentifier team.Name ++ ".id, ") ++ "]\n" ++
          "  depends_on = " ++ strings.ReplaceAll ("[" ++
            String.join ((referencedTeams P teams).map fun team =>
              "rollbar_team." ++ sanitizeIdentifier team.Name ++ ".id, ") ++ "]") ".id" "" ++
          "\n" ++ "\x7d\n\n") (by decide)
        (sanitizeIdentifier_no_space _) (by simp)]
      exact congrArg some (String.ext (by simp))
  have projectsI : (written imp w (WriteProjectImportCommands env projects imp w).world).map
      importedAddress =
      projects.map fun P => some ("rollbar_project." ++ sanitizeIdentifier P.Name) := by
    rw [WriteProjectImportCommands_eq, himp]
    simp only [Bool.false_eq_true, if_false, Step.world, written_append, List.map_map]
    apply List.map_congr_left
    intro P _
    simp only [Function.comp]
    exact importedAddress_of_shape _ _ (strconv.Itoa P.ID ++ "\n")
      (no_space_typed "rollbar_project" _ (by decide) (sanitizeIdentifier_no_space _)) (by simp)
  have tokensR : (written tf w (WriteProjectAccessTokens env projects tf w).world).map
      declaredAddress =
      projects.flatMap fun P => P.AccessTokens.map fun A =>
        some ("rollbar_project_access_token." ++ sanitizeIdentifier P.Name ++ "_" ++
          sanitizeIdentifier A.Name) := by
    rw [WriteProjectAccessTokens_eq, htf]
    simp only [Bool.false_eq_true, if_false, Step.world, written_append, List.map_flatMap,
      List.map_map]
    simp only [Function.comp_def, tokenBlock_address]
  have tokensI : (written imp w
      (WriteProjectAccessTokenImportCommands env projects imp w).world).map importedAddress =
      projects.flatMap fun P => P.AccessTokens.map fun A =>
        some ("rollbar_project_access_token." ++ sanitizeIdentifier P.Name ++ "_" ++
          sanitizeIdentifier A.Name) := by
    rw [WriteProjectAccessTokenImportCommands_eq, himp]
    simp only [Bool.false_eq_true, if_false, Step.world, written_append, List.map_flatMap,
      List.map_map]
    simp only [Function.comp_def, tokenLine_address]
  have usersR : (written tf w (WriteUsers env users tf w).world).map declaredAddress =
      users.map fun U => some ("rollbar_user." ++ sanitizeIdentifier U.Username) := by
    rw [WriteUsers_eq, htf]
    simp only [Bool.false_eq_true, if_false, Step.world, written_append, List.map_map]
    apply List.map_congr_left
    intro U _
    simp only [Function.comp]
    rw [userResource_eq]
    rw [declaredAddress_of_shape _ "rollbar_user" (sanitizeIdentifier U.Username)
      ("\x7b\n" ++ (if U.Email = "" then "" else "  email = \"" ++ U.Email ++ "\"\n") ++
        (if U.Teams = [] then ""
          else "  team_ids = \"[" ++ String.join (U.Teams.map fun T =>
            "rollbar_team." ++ sanitizeIdentifier T.Name ++ ".id, ") ++ "]\"\n") ++
        "\x7d\n\n") (by decide) (sanitizeIdentifier_no_space _) (by simp)]
    exact congrArg some (String.ext (by simp))
  have usersI : (written imp w (WriteUserImportCommands env users imp w).world).map
      importedAddress = users.map fun U => some ("rollbar_user." ++ sanitizeIdentifier U.Username) := by
    rw [WriteUserImportCommands_eq, himp]
    simp only [Bool.false_eq_true, if_false, Step.world, written_append, List.map_map]
    apply List.map_congr_left
    intro U _
    simp only [Function.comp]
    exact importedAddress_of_shape _ _ (strconv.Itoa U.ID ++ "\n")
      (no_space_typed "rollbar_user" _ (by decide) (sanitizeIdentifier_no_space _)) (by simp)
  exact ⟨⟨teamsR.trans teamsI.symm, teamsR⟩, ⟨projectsR.trans projectsI.symm, projectsR⟩,
    ⟨tokensR.trans tokensI.symm, tokensR⟩, ⟨usersR.trans usersI.symm, usersR⟩⟩

theorem C3_import_targets_are_declared_witness :
    sampleEnv.openFails "account.tf" = false ∧ sampleEnv.openFails "import" = false ∧
    (written "account.tf" emptyWorld
        (WriteTeams sampleEnv [sampleTeam1, sampleTeam2] "account.tf" emptyWorld).world).map
      declaredAddress =
      (written "import" emptyWorld
        (WriteTeamImportCommands sampleEnv [sampleTeam1, sampleTeam2] "import"
          emptyWorld).world).map importedAddress ∧
    (written "import" emptyWorld
        (WriteTeamImportCommands sampleEnv [sampleTeam1, sampleTeam2] "import"
          emptyWorld).world).map importedAddress =
      [some "rollbar_team.Owners_EU", some "rollbar_team.ideas"] :=
  have h := C3_import_targets_are_declared sampleEnv [sampleTeam1, sampleTeam2]
    [sampleProject] [sampleUser] "account.tf" "import" emptyWorld rfl rfl
  ⟨rfl, rfl, h.1.1, (h.1.1.symm.trans h.1.2).trans (by decide)⟩

/-! ### The fetcher -/

open fetcher

theorem FetchSpec.andThen {env : Env} {tok : String} {α β : Type} {w : World} {s : Step α}
    {k : α → World → Step β} (hs : FetchSpec env tok w s)
    (hk : ∀ a w1, FetchSpec env tok w1 (k a w1)) : FetchSpec env tok w (s.andThen k) := by
  cases s with
  | ok a w1 =>
    obtain ⟨hf, c1, ht, hg⟩ := hs
    obtain ⟨hf2, c2, ht2, hg2⟩ := hk a w1
    simp only [Step.world] at hf ht
    simp only [Step.andThen]
    refine ⟨hf2.trans hf, c1 ++ c2, by rw [ht2, ht, List.append_assoc], ?_⟩
    cases hr : k a w1 with
    | ok b w2 =>
      rw [hr] at hg2
      intro e he
      rcases List.mem_append.mp he with h | h
      · exact hg e h
      · exact hg2 e h
    | exit c w2 =>
      rw [hr] at hg2
      exact hg2
  | exit c w1 => exact hs

theorem FetchSpec.ok_self {env : Env} {tok : String} {α : Type} (a : α) (w : World) :
    FetchSpec env tok w (Step.ok a w) :=
  ⟨rfl, [], by simp [Step.world], by simp⟩

theorem fetch_spec (env : Env) (tok endpoint : String) (w : World) :
    FetchSpec env tok w (fetch env tok endpoint w) ∧
    ∀ body w1, fetch env tok endpoint w = Step.ok body w1 →
      env.httpGet ("https://api.rollbar.com/api/1/" ++ endpoint) tok = some body := by
  unfold fetch
  simp only []
  cases h : env.httpGet ("https://api.rollbar.com/api/1/" ++ endpoint) tok with
  | none =>
    refine ⟨⟨rfl, [Event.get ("https://api.rollbar.com/api/1/" ++ endpoint)], rfl, rfl⟩, ?_⟩
    intro body w1 hb
    cases hb
  | some body =>
    refine ⟨⟨rfl, [Event.get ("https://api.rollbar.com/api/1/" ++ endpoint)], rfl, ?_⟩, ?_⟩
    · intro e he
      simp only [List.mem_singleton] at he
      subst he
      simp [failedRequest, h]
    · intro b w1 hb
      cases hb
      rfl

theorem foldl_append_singleton {α β : Type} (f : α → β) (xs : List α) (init : List β) :
    xs.foldl (fun acc x => acc ++ [f x]) init = init ++ xs.map f := by
  induction xs generalizing init with
  | nil => simp
  | cons x xs ih => simp [ih]

theorem unmarshal_exit_spec (env : Env) (tok : String) {α : Type} (shape : Shape)
    (body : String) (w : World) :
    FetchSpec env tok w (Step.exit 1 (traceUnmarshal shape body w) : Step α) :=
  ⟨rfl, [Event.unmarshal shape body], rfl, rfl⟩

theorem unmarshal_ok_spec (env : Env) (tok : String) {α : Type} (shape : Shape)
    (body : String) (w : World) (a : α) (h : unmarshalErr env shape body = some 0) :
    FetchSpec env tok w (Step.ok a (traceUnmarshal shape body w)) := by
  refine ⟨rfl, [Event.unmarshal shape body], rfl, ?_⟩
  intro e he
  simp only [List.mem_singleton] at he
  subst he
  simp [failedRequest, h]

theorem fetchProjectAccessTokens_spec (env : Env) (tok : String) (project : Project)
    (w : World) : FetchSpec env tok w (fetchProjectAccessTokens env tok project w) := by
  unfold fetchProjectAccessTokens
  refine FetchSpec.andThen (fetch_spec env tok _ w).1 ?_
  intro raw w1
  simp only []
  cases h : env.unmarshalAccessTokenResponse raw with
  | none => exact unmarshal_exit_spec env tok _ raw w1
  | some data =>
    by_cases he : data.Err = 0
    · simp only [he, ne_eq, not_true_eq_false, if_false]
      exact unmarshal_ok_spec env tok _ raw w1 _ (by simp [unmarshalErr, h, he])
    · simp only [ne_eq, he, not_false_eq_true, if_true]
      exact unmarshal_exit_spec env tok _ raw w1

theorem fetchTeamProjects_spec (env : Env) (tok : String) (team : Team) (w : World) :
    FetchSpec env tok w (fetchTeamProjects env tok team w) := by
  unfold fetchTeamProjects
  refine FetchSpec.andThen (fetch_spec env tok _ w).1 ?_
  intro raw w1
  simp only []
  cases h : env.unmarshalTeamProjectsResponse raw with
  | none => exact unmarshal_exit_spec env tok _ raw w1
  | some data =>
    by_cases he : data.Err = 0
    · simp only [he, ne_eq, not_true_eq_false, if_false]
      exact unmarshal_ok_spec env tok _ raw w1 _ (by simp [unmarshalErr, h, he])
    · simp only [ne_eq, he, not_false_eq_true, if_true]
      exact unmarshal_exit_spec env tok _ raw w1

theorem fetchTeamUsers_spec (env : Env) (tok : String) (team : Team) (w : World) :
    FetchSpec env tok w (fetchTeamUsers env tok team w) := by
  unfold fetchTeamUsers
  refine FetchSpec.andThen (fetch_spec env tok _ w).1 ?_
  intro raw w1
  simp only []
  cases h : env.unmarshalTeamUsersResponse raw with
  | none => exact unmarshal_exit_spec env tok _ raw w1
  | some data =>
    by_cases he : data.Err = 0
    · simp only [he, ne_eq, not_true_eq_false, if_false]
      exact unmarshal_ok_spec env tok _ raw w1 _ (by simp [unmarshalErr, h, he])
    · simp only [ne_eq, he, not_false_eq_true, if_true]
      exact unmarshal_exit_spec env tok _ raw w1

theorem fetchUserTeams_spec (env : Env) (tok : String) (user : User) (w : World) :
    FetchSpec env tok w (fetchUserTeams env tok user w) := by
  unfold fetchUserTeams
  refine FetchSpec.andThen (fetch_spec env tok _ w).1 ?_
  intro raw w1
  simp only []
  cases h : env.unmarshalUserTeamResponse raw with
  | none => exact unmarshal_exit_spec env tok _ raw w1
  | some data =>
    by_cases he : data.Err = 0
    · simp only [he, ne_eq, not_true_eq_false, if_false]
      exact unmarshal_ok_spec env tok _ raw w1 _ (by simp [unmarshalErr, h, he])
    · simp only [ne_eq, he, not_false_eq_true, if_true]
      exact unmarshal_exit_spec env tok _ raw w1

theorem forRange_spec (env : Env) (tok : String) {α : Type} (body : α → World → Step α)
    (hbody : ∀ x w, FetchSpec env tok w (body x w)) (xs : List α) (w : World) :
    FetchSpec env tok w (forRange body xs w) := by
  induction xs generalizing w with
  | nil => exact FetchSpec.ok_self _ w
  | cons x xs ih =>
    unfold forRange
    refine FetchSpec.andThen (hbody x w) ?_
    intro y w1
    refine FetchSpec.andThen (ih w1) ?_
    intro ys w2
    exact FetchSpec.ok_self _ w2

theorem andThen_fetch_grows (env : Env) (tok endpoint : String) (w : World) {β : Type}
    (k : String → World → Step β) (hk : ∀ a w1, FetchSpec env tok w1 (k a w1)) :
    w.trace.length < ((fetch env tok endpoint w).andThen k).world.trace.length := by
  unfold fetch
  simp only []
  cases env.httpGet ("https://api.rollbar.com/api/1/" ++ endpoint) tok with
  | none => simp [Step.andThen, Step.world]
  | some body =>
    simp only [Step.andThen]
    obtain ⟨-, calls, hc, -⟩ := hk body
      { w with trace := w.trace ++ [Event.get ("https://api.rollbar.com/api/1/" ++ endpoint)] }
    rw [hc]
    simp

theorem FetchProjects_spec_grows (env : Env) (tok : String) (w : World) :
    FetchSpec env tok w (FetchProjects env tok w) ∧
    w.trace.length < (FetchProjects env tok w).world.trace.length := by
  unfold FetchProjects
  refine ⟨FetchSpec.andThen (fetch_spec env tok _ w).1 ?hk,
    andThen_fetch_grows env tok _ w _ ?hk⟩
  intro raw w1
  simp only []
  cases h : env.unmarshalProjectResponse raw with
  | none => exact unmarshal_exit_spec env tok _ raw w1
  | some data =>
    by_cases he : data.Err = 0
    · simp only [he, ne_eq, not_true_eq_false, if_false]
      have h1 := unmarshal_ok_spec env tok Shape.projectResponse raw w1 ()
        (by simp [unmarshalErr, h, he])
      have h2 := FetchSpec.andThen h1 (k := fun _ w =>
        forRange (fetchProjectAccessTokens env tok) data.Result w)
        (fun _ w2 => forRange_spec env tok _ (fetchProjectAccessTokens_spec env tok) _ w2)
      exact h2
    · simp only [ne_eq, he, not_false_eq_true, if_true]
      exact unmarshal_exit_spec env tok _ raw w1

theorem FetchTeams_spec (env : Env) (tok : String) (w : World) :
    FetchSpec env tok w (FetchTeams env tok w) := by
  unfold FetchTeams
  refine FetchSpec.andThen (fetch_spec env tok _ w).1 ?_
  intro raw w1
  simp only []
  cases h : env.unmarshalTeamResponse raw with
  | none => exact unmarshal_exit_spec env tok _ raw w1
  | some data =>
    by_cases he : data.Err = 0
    · simp only [he, ne_eq, not_true_eq_false, if_false]
      have h1 := unmarshal_ok_spec env tok Shape.teamResponse raw w1 ()
        (by simp [unmarshalErr, h, he])
      have h2 := FetchSpec.andThen h1 (k := fun _ w =>
        forRange (fun team w =>
          (fetchTeamProjects env tok team w).andThen fun team w =>
            fetchTeamUsers env tok team w) data.Result w)
        (fun _ w2 => forRange_spec env tok _
          (fun x w3 => FetchSpec.andThen (fetchTeamProjects_spec env tok x w3)
            (fun t w4 => fetchTeamUsers_spec env tok t w4)) _ w2)
      exact h2
    · simp only [ne_eq, he, not_false_eq_true, if_true]
      exact unmarshal_exit_spec env tok _ raw w1

theorem FetchUsers_spec (env : Env) (tok : String) (w : World) :
    FetchSpec env tok w (FetchUsers env tok w) := by
  unfold FetchUsers
  refine FetchSpec.andThen (fetch_spec env tok _ w).1 ?_
  intro raw w1
  simp only []
  cases h : env.unmarshalUserResponse raw with
  | none => exact unmarshal_exit_spec env tok _ raw w1
  | some data =>
    by_cases he : data.Err = 0
    · simp only [he, ne_eq, not_true_eq_false, if_false]
      have h1 := unmarshal_ok_spec env tok Shape.userResponse raw w1 ()
        (by simp [unmarshalErr, h, he])
      have h2 := FetchSpec.andThen h1 (k := fun _ w =>
        forRange (fetchUserTeams env tok) data.Result.Users w)
        (fun _ w2 => forRange_spec env tok _ (fetchUserTeams_spec env tok) _ w2)
      exact h2
    · simp only [ne_eq, he, not_false_eq_true, if_true]
      exact unmarshal_exit_spec env tok _ raw w1

/-! ### generate -/

theorem generate_eq (env : Env) (singleFile : Bool) (tok out : String) (w : World) :
    Main.generate env singleFile tok out w =
      (FetchProjects env tok w).andThen fun projects w =>
      (FetchTeams env tok w).andThen fun teams w =>
      (FetchUsers env tok w).andThen fun users w =>
      writeAll env singleFile projects teams users out w := by
  unfold Main.generate writeAll
  rfl

/-- A step that leaves the trace as it was. -/
theorem keepsTrace_andThen {α β : Type} (w : World) (s : Step α) (k : α → World → Step β)
    (hs : s.world.trace = w.trace) (hk : ∀ a w1, (k a w1).world.trace = w1.trace) :
    (s.andThen k).world.trace = w.trace := by
  cases s with
  | ok a w1 =>
    simp only [Step.andThen]
    rw [hk a w1]
    exact hs
  | exit c w1 => exact hs

theorem ite_exit_ok_trace (b : Bool) (w : World) (f : String) (chunks : List String) :
    (if b = true then (Step.exit 1 w : Step Unit)
      else Step.ok () (w.append f chunks)).world.trace = w.trace := by
  cases b <;> rfl

theorem writeAll_trace (env : Env) (singleFile : Bool) (projects : List Project)
    (teams : List Team) (users : List User) (out : String) (w : World) :
    (writeAll env singleFile projects teams users out w).world.trace = w.trace := by
  unfold writeAll
  cases singleFile
  · simp only [Bool.false_eq_true, if_false]
    refine keepsTrace_andThen w _ _ (by rw [WriteProviderBlocks_eq]; exact ite_exit_ok_trace _ _ _ _) ?_
    intro _ w
    refine keepsTrace_andThen w _ _ (by rw [WriteTeams_eq]; exact ite_exit_ok_trace _ _ _ _) ?_
    intro _ w
    refine keepsTrace_andThen w _ _ (by rw [WriteProjects_eq]; exact ite_exit_ok_trace _ _ _ _) ?_
    intro _ w
    refine keepsTrace_andThen w _ _
      (by rw [WriteProjectAccessTokens_eq]; exact ite_exit_ok_trace _ _ _ _) ?_
    intro _ w
    refine keepsTrace_andThen w _ _ (by rw [WriteUsers_eq]; exact ite_exit_ok_trace _ _ _ _) ?_
    intro _ w
    refine keepsTrace_andThen w _ _
      (by rw [WriteProjectAccessTokenImportCommands_eq]; exact ite_exit_ok_trace _ _ _ _) ?_
    intro _ w
    refine keepsTrace_andThen w _ _
      (by rw [WriteProjectImportCommands_eq]; exact ite_exit_ok_trace _ _ _ _) ?_
    intro _ w
    refine keepsTrace_andThen w _ _
      (by rw [WriteTeamImportCommands_eq]; exact ite_exit_ok_trace _ _ _ _) ?_
    intro _ w
    rw [WriteUserImportCommands_eq]
    exact ite_exit_ok_trace _ _ _ _
  · simp only [if_true]
    refine keepsTrace_andThen w _ _ (by rw [WriteProviderBlocks_eq]; exact ite_exit_ok_trace _ _ _ _) ?_
    intro _ w
    refine keepsTrace_andThen w _ _ (by rw [WriteTeams_eq]; exact ite_exit_ok_trace _ _ _ _) ?_
    intro _ w
    refine keepsTrace_andThen w _ _ (by rw [WriteProjects_eq]; exact ite_exit_ok_trace _ _ _ _) ?_
    intro _ w
    refine keepsTrace_andThen w _ _
      (by rw [WriteProjectAccessTokens_eq]; exact ite_exit_ok_trace _ _ _ _) ?_
    intro _ w
    refine keepsTrace_andThen w _ _ (by rw [WriteUsers_eq]; exact ite_exit_ok_trace _ _ _ _) ?_
    intro _ w
    refine keepsTrace_andThen w _ _
      (by rw [WriteProjectAccessTokenImportCommands_eq]; exact ite_exit_ok_trace _ _ _ _) ?_
    intro _ w
    refine keepsTrace_andThen w _ _
      (by rw [WriteProjectImportCommands_eq]; exact ite_exit_ok_trace _ _ _ _) ?_
    intro _ w
    refine keepsTrace_andThen w _ _
      (by rw [WriteTeamImportCommands_eq]; exact ite_exit_ok_trace _ _ _ _) ?_
    intro _ w
    rw [WriteUserImportCommands_eq]
    exact ite_exit_ok_trace _ _ _ _

theorem generate_cases (env : Env) (singleFile : Bool) (tok out : String) (w : World) :
    (∃ w', Main.generate env singleFile tok out w = Step.exit 1 w' ∧ w'.files = w.files ∧
      w.trace.length < w'.trace.length) ∨
    (∃ projects teams users w1 w2 w3 calls,
      FetchProjects env tok w = Step.ok projects w1 ∧
      FetchTeams env tok w1 = Step.ok teams w2 ∧
      FetchUsers env tok w2 = Step.ok users w3 ∧
      Main.generate env singleFile tok out w =
        writeAll env singleFile projects teams users out w3 ∧
      w3.files = w.files ∧ w3.trace = w.trace ++ calls ∧ calls ≠ [] ∧
      ∀ e ∈ calls, failedRequest env tok e = false) := by
  rw [generate_eq]
  obtain ⟨⟨hf1, c1, ht1, hg1⟩, hgrow⟩ := FetchProjects_spec_grows env tok w
  cases hP : FetchProjects env tok w with
  | exit c w1 =>
    rw [hP] at hf1 ht1 hg1 hgrow
    simp only [Step.world] at hf1 ht1 hgrow
    simp only at hg1
    subst hg1
    exact Or.inl ⟨w1, rfl, hf1, hgrow⟩
  | ok projects w1 =>
    rw [hP] at hf1 ht1 hg1 hgrow
    simp only [Step.world] at hf1 ht1 hgrow
    simp only at hg1
    have hc1 : c1 ≠ [] := by
      intro h
      rw [ht1, h] at hgrow
      simp at hgrow
    obtain ⟨hf2, c2, ht2, hg2⟩ := FetchTeams_spec env tok w1
    cases hT : FetchTeams env tok w1 with
    | exit c w2 =>
      rw [hT] at hf2 ht2 hg2
      simp only [Step.world] at hf2 ht2
      simp only at hg2
      subst hg2
      refine Or.inl ⟨w2, by simp only [Step.andThen, hT], hf2.trans hf1, ?_⟩
      rw [ht2, List.length_append]
      omega
    | ok teams w2 =>
      rw [hT] at hf2 ht2 hg2
      simp only [Step.world] at hf2 ht2
      simp only at hg2
      obtain ⟨hf3, c3, ht3, hg3⟩ := FetchUsers_spec env tok w2
      cases hU : FetchUsers env tok w2 with
      | exit c w3 =>
        rw [hU] at hf3 ht3 hg3
        simp only [Step.world] at hf3 ht3
        simp only at hg3
        subst hg3
        refine Or.inl ⟨w3, by simp only [Step.andThen, hT, hU], hf3.trans (hf2.trans hf1), ?_⟩
        rw [ht3, ht2, List.length_append, List.length_append]
        omega
      | ok users w3 =>
        rw [hU] at hf3 ht3 hg3
        simp only [Step.world] at hf3 ht3
        simp only at hg3
        refine Or.inr ⟨projects, teams, users, w1, w2, w3, c1 ++ (c2 ++ c3), rfl, hT, hU,
          by simp only [Step.andThen, hT, hU],
          hf3.trans (hf2.trans hf1), ?_, ?_, ?_⟩
        · rw [ht3, ht2, ht1]
          simp
        · simp [hc1]
        · intro e he
          rcases List.mem_append.mp he with h | h
          · exact hg1 e h
          · rcases List.mem_append.mp h with h | h
            · exact hg2 e h
            · exact hg3 e h

theorem callsMade_of_trace (w w' : World) (calls : List Event)
    (h : w'.trace = w.trace ++ calls) : callsMade w w' = calls := by
  simp [callsMade, h]

/-- C6. If any request of a run of `generate` goes wrong (the GET fails, the
body does not parse, or it parses with a non-zero `err` code), the run ends
with the fatal exit status 1 and every file is as it was before the run. -/
theorem C6_failed_request_writes_nothing (env : Env) (singleFile : Bool)
    (accessToken outPath : String) (w : World) (e : Event)
    (he : e ∈ callsMade w (Main.generate env singleFile accessToken outPath w).world)
    (hfailed : failedRequest env accessToken e = true) :
    ∃ w', Main.generate env singleFile accessToken outPath w = Step.exit 1 w' ∧
      w'.files = w.files := by
  rcases generate_cases env singleFile accessToken outPath w with
    ⟨w', h1, h2, -⟩ | ⟨projects, teams, users, w1, w2, w3, calls, -, -, -, hgen, -, ht, -, hgood⟩
  · exact ⟨w', h1, h2⟩
  · exfalso
    rw [hgen] at he
    have htr := writeAll_trace env singleFile projects teams users outPath w3
    rw [callsMade_of_trace w _ calls (htr.trans ht)] at he
    have := hgood e he
    rw [this] at hfailed
    cases hfailed

theorem C6_failed_request_writes_nothing_witness :
    Event.get "https://api.rollbar.com/api/1/team/2/users" ∈
        callsMade emptyWorld (Main.generate failingEnv true "tok" "out" emptyWorld).world ∧
      failedRequest failingEnv "tok" (Event.get "https://api.rollbar.com/api/1/team/2/users") =
        true ∧
      ∃ w', Main.generate failingEnv true "tok" "out" emptyWorld = Step.exit 1 w' ∧
        w'.files = emptyWorld.files :=
  ⟨by decide, by decide,
    C6_failed_request_writes_nothing failingEnv true "tok" "out" emptyWorld
      (Event.get "https://api.rollbar.com/api/1/team/2/users") (by decide) (by decide)⟩

theorem generate_trace_grows (env : Env) (singleFile : Bool) (tok out : String) (w : World) :
    w.trace.length < (Main.generate env singleFile tok out w).world.trace.length := by
  rcases generate_cases env singleFile tok out w with
    ⟨w', h1, -, h3⟩ | ⟨projects, teams, users, w1, w2, w3, calls, -, -, -, hgen, -, ht, hne, -⟩
  · rw [h1]
    exact h3
  · rw [hgen, writeAll_trace, ht, List.length_append]
    have : 0 < calls.length := List.length_pos.mpr hne
    omega

theorem generate_ne_exit_same (env : Env) (singleFile : Bool) (tok out : String) (w : World)
    (c : Int) : Main.generate env singleFile tok out w ≠ Step.exit c w := by
  intro h
  have := generate_trace_grows env singleFile tok out w
  rw [h] at this
  simp [Step.world] at this

/-- What `main` does with its flags: it hands over to `generate` exactly when
the access token is not the default `NO_TOKEN`, is not empty, consists of
letters and digits only, and `os.IsNotExist` does not hold of the error of
`os.Stat` on the output path. A missing or invalid token ends the process with
`os.Exit(-1)`, and with a valid token an `os.Stat` error of which
`os.IsNotExist` holds ends it with `os.Exit(-2)`; in both cases the world is
untouched. -/
theorem main_dispatch_iff (env : Env) (accessToken : String) (singleFile : Bool)
    (outPath : String) (w : World) :
    (Main.main env accessToken singleFile outPath w =
        Main.generate env singleFile accessToken outPath w ↔
      (accessToken ≠ "NO_TOKEN" ∧ accessToken ≠ "" ∧
        ∀ c ∈ accessToken.data, env.isLetterOrNumber c = true) ∧
      os.IsNotExist (env.stat outPath) = false) ∧
    (¬ (accessToken ≠ "NO_TOKEN" ∧ accessToken ≠ "" ∧
        ∀ c ∈ accessToken.data, env.isLetterOrNumber c = true) →
      Main.main env accessToken singleFile outPath w = Step.exit (-1) w) ∧
    ((accessToken ≠ "NO_TOKEN" ∧ accessToken ≠ "" ∧
        ∀ c ∈ accessToken.data, env.isLetterOrNumber c = true) →
      os.IsNotExist (env.stat outPath) = true →
      Main.main env accessToken singleFile outPath w = Step.exit (-2) w) := by
  have hvalid : (Main.required accessToken && Main.alphanumunicode env accessToken) = true ↔
      (accessToken ≠ "" ∧ ∀ c ∈ accessToken.data, env.isLetterOrNumber c = true) := by
    have hd : accessToken.data = [] ↔ accessToken = "" := by
      constructor
      · intro h
        exact String.ext h
      · intro h
        rw [h]
    simp only [Main.required, Main.alphanumunicode, Bool.and_eq_true, decide_eq_true_eq,
      List.all_eq_true, ne_eq, hd]
    tauto
  by_cases h1 : accessToken = "NO_TOKEN"
  · have hm : Main.main env accessToken singleFile outPath w = Step.exit (-1) w := by
      simp [Main.main, h1]
    refine ⟨⟨fun h => ?_, fun h => absurd h1 h.1.1⟩, fun _ => hm, fun h => absurd h1 h.1⟩
    exact absurd (h.symm.trans hm) (generate_ne_exit_same env singleFile accessToken outPath w _)
  · by_cases h2 : (Main.required accessToken && Main.alphanumunicode env accessToken) = true
    · have hv := hvalid.mp h2
      by_cases h3 : os.IsNotExist (env.stat outPath) = true
      · have hm : Main.main env accessToken singleFile outPath w = Step.exit (-2) w := by
          simp [Main.main, h1, h2, h3]
        refine ⟨⟨fun h => ?_, fun h => ?_⟩, fun h => absurd ⟨h1, hv⟩ h, fun _ _ => hm⟩
        · exact absurd (h.symm.trans hm)
            (generate_ne_exit_same env singleFile accessToken outPath w _)
        · rw [h.2] at h3
          cases h3
      · have hm : Main.main env accessToken singleFile outPath w =
            Main.generate env singleFile accessToken outPath w := by
          simp [Main.main, h1, h2, h3]
        refine ⟨⟨fun _ => ⟨⟨h1, hv⟩, by simpa using h3⟩, fun _ => hm⟩,
          fun h => absurd ⟨h1, hv⟩ h, fun _ h => absurd h h3⟩
    · have hm : Main.main env accessToken singleFile outPath w = Step.exit (-1) w := by
        simp [Main.main, h1, h2]
      have hnv : ¬ (accessToken ≠ "" ∧ ∀ c ∈ accessToken.data, env.isLetterOrNumber c = true) :=
        fun h => h2 (hvalid.mpr h)
      refine ⟨⟨fun h => ?_, fun h => absurd h.1.2 hnv⟩, fun _ => hm, fun h => absurd h.2 hnv⟩
      exact absurd (h.symm.trans hm)
        (generate_ne_exit_same env singleFile accessToken outPath w _)

theorem main_dispatch_sample :
    Main.main sampleEnv "NO_TOKEN" false "." emptyWorld = Step.exit (-1) emptyWorld ∧
    Main.main sampleEnv "abc-123" false "." emptyWorld = Step.exit (-1) emptyWorld ∧
    Main.main sampleEnv "abc123" false "/nowhere" emptyWorld = Step.exit (-2) emptyWorld ∧
    Main.main sampleEnv "abc123" false "." emptyWorld =
      Main.generate sampleEnv false "abc123" "." emptyWorld :=
  ⟨(main_dispatch_iff sampleEnv "NO_TOKEN" false "." emptyWorld).2.1 (by decide),
    (main_dispatch_iff sampleEnv "abc-123" false "." emptyWorld).2.1 (by decide),
    (main_dispatch_iff sampleEnv "abc123" false "/nowhere" emptyWorld).2.2 (by decide)
      (by decide),
    (main_dispatch_iff sampleEnv "abc123" false "." emptyWorld).1.mpr (by decide)⟩

/-- C7. With a valid access token and `-out plainfile/sub`, where `plainfile`
is a regular file, the output path does not exist, yet `main` does not end
with `os.Exit(-2)`: `os.Stat` fails with `ENOTDIR`, of which `os.IsNotExist`
does not hold, so `main` hands over to `generate`, which makes its nine GET
requests and then exits with status 1 when the first file cannot be opened. -/
theorem C7_missing_path_under_a_file_is_not_refused :
    pathDoesNotExist underAFileEnv "plainfile/sub" = true ∧
    Main.main underAFileEnv "abc123" false "plainfile/sub" emptyWorld =
      Main.generate underAFileEnv false "abc123" "plainfile/sub" emptyWorld ∧
    Main.main underAFileEnv "abc123" false "plainfile/sub" emptyWorld =
      Step.exit 1 (Main.main underAFileEnv "abc123" false "plainfile/sub" emptyWorld).world ∧
    Main.main underAFileEnv "abc123" false "plainfile/sub" emptyWorld ≠
      Step.exit (-2) emptyWorld ∧
    getRequests
        (callsMade emptyWorld
          (Main.main underAFileEnv "abc123" false "plainfile/sub" emptyWorld).world) =
      ["https://api.rollbar.com/api/1/projects",
       "https://api.rollbar.com/api/1/project/10/access_tokens",
       "https://api.rollbar.com/api/1/teams",
       "https://api.rollbar.com/api/1/team/1/projects",
       "https://api.rollbar.com/api/1/team/1/users",
       "https://api.rollbar.com/api/1/team/2/projects",
       "https://api.rollbar.com/api/1/team/2/users",
       "https://api.rollbar.com/api/1/users",
       "https://api.rollbar.com/api/1/user/7/teams"] := by
  have hexit : Main.main underAFileEnv "abc123" false "plainfile/sub" emptyWorld =
      Step.exit 1 (Main.main underAFileEnv "abc123" false "plainfile/sub" emptyWorld).world :=
    rfl
  refine ⟨by decide, rfl, hexit, ?_, by decide⟩
  intro h
  rw [hexit] at h
  have hc : (1 : Int) = -2 := by
    injection h
  revert hc
  decide

/-! ### Single-file and multi-file mode -/

theorem step_ite_andThen {β : Type} (b : Bool) (w w1 : World) (k : Unit → World → Step β) :
    (if b = true then (Step.exit 1 w : Step Unit) else Step.ok () w1).andThen k =
      if b = true then Step.exit 1 w else k () w1 := by
  cases b <;> rfl

theorem writeAll_worlds (env : Env) (projects : List Project) (teams : List Team)
    (users : List User) (out : String) (w w1 w2 : World)
    (h1 : writeAll env true projects teams users out w = Step.ok () w1)
    (h2 : writeAll env false projects teams users out w = Step.ok () w2) :
    ∃ p t pr tk u i : List String,
      w1 = (w.append (out ++ "/rollbar_account.tf") (p ++ (t ++ (pr ++ (tk ++ u))))).append
        (out ++ "/import") i ∧
      w2 = (((((w.append (out ++ "/main.tf") p).append (out ++ "/teams.tf") t).append
        (out ++ "/projects.tf") pr).append (out ++ "/access_tokens.tf") tk).append
        (out ++ "/users.tf") u).append (out ++ "/import") i := by
  unfold writeAll at h1 h2
  simp only [if_true, Bool.false_eq_true, if_false, WriteProviderBlocks_eq, WriteTeams_eq,
    WriteProjects_eq, WriteProjectAccessTokens_eq, WriteUsers_eq,
    WriteProjectAccessTokenImportCommands_eq, WriteProjectImportCommands_eq,
    WriteTeamImportCommands_eq, WriteUserImportCommands_eq, step_ite_andThen] at h1 h2
  cases ha : env.openFails (out ++ "/rollbar_account.tf") with
  | true => simp [ha] at h1
  | false =>
  cases hi : env.openFails (out ++ "/import") with
  | true => simp [ha, hi] at h1
  | false =>
  cases hm : env.openFails (out ++ "/main.tf") with
  | true => simp [hm] at h2
  | false =>
  cases ht : env.openFails (out ++ "/teams.tf") with
  | true => simp [hm, ht] at h2
  | false =>
  cases hp : env.openFails (out ++ "/projects.tf") with
  | true => simp [hm, ht, hp] at h2
  | false =>
  cases hk : env.openFails (out ++ "/access_tokens.tf") with
  | true => simp [hm, ht, hp, hk] at h2
  | false =>
  cases hu : env.openFails (out ++ "/users.tf") with
  | true => simp [hm, ht, hp, hk, hu] at h2
  | false =>
  simp only [ha, hi, Bool.false_eq_true, if_false, World.append_append, Step.ok.injEq,
    true_and] at h1
  simp only [hm, ht, hp, hk, hu, hi, Bool.false_eq_true, if_false, World.append_append,
    Step.ok.injEq, true_and] at h2
  refine ⟨_, _, _, _, _, _, ?_, h2.symm⟩
  rw [← h1]
  simp only [List.append_assoc]

theorem generate_ok_writeAll (env : Env) (singleFile : Bool) (tok out : String) (w w' : World)
    (h : Main.generate env singleFile tok out w = Step.ok () w') :
    ∃ projects teams users w1 w2 w3,
      FetchProjects env tok w = Step.ok projects w1 ∧
      FetchTeams env tok w1 = Step.ok teams w2 ∧
      FetchUsers env tok w2 = Step.ok users w3 ∧
      writeAll env singleFile projects teams users out w3 = Step.ok () w' ∧
      w3.files = w.files := by
  rcases generate_cases env singleFile tok out w with
    ⟨wx, h1, -, -⟩ | ⟨projects, teams, users, w1, w2, w3, calls, hP, hT, hU, hgen, hf, -, -, -⟩
  · rw [h1] at h
    cases h
  · exact ⟨projects, teams, users, w1, w2, w3, hP, hT, hU, hgen ▸ h, hf⟩

/-- C5. When both a single-file run and a multi-file run of `generate` from
the same world complete, and none of the `.tf` output files existed before,
the content of `rollbar_account.tf` written in single-file mode is the
concatenation of the contents of `main.tf`, `teams.tf`, `projects.tf`,
`access_tokens.tf` and `users.tf` written in multi-file mode, in this order,
and the file `import` is the same in both modes. -/
theorem C5_single_file_is_concatenation (env : Env) (accessToken outPath : String)
    (w wSingle wMulti : World)
    (hsingle : Main.generate env true accessToken outPath w = Step.ok () wSingle)
    (hmulti : Main.generate env false accessToken outPath w = Step.ok () wMulti)
    (haccount : w.files (outPath ++ "/rollbar_account.tf") = none)
    (hmain : w.files (outPath ++ "/main.tf") = none)
    (hteams : w.files (outPath ++ "/teams.tf") = none)
    (hprojects : w.files (outPath ++ "/projects.tf") = none)
    (htokens : w.files (outPath ++ "/access_tokens.tf") = none)
    (husers : w.files (outPath ++ "/users.tf") = none) :
    content (wSingle.files (outPath ++ "/rollbar_account.tf")) =
      content (wMulti.files (outPath ++ "/main.tf")) ++
      content (wMulti.files (outPath ++ "/teams.tf")) ++
      content (wMulti.files (outPath ++ "/projects.tf")) ++
      content (wMulti.files (outPath ++ "/access_tokens.tf")) ++
      content (wMulti.files (outPath ++ "/users.tf")) ∧
    wSingle.files (outPath ++ "/import") = wMulti.files (outPath ++ "/import") := by
  obtain ⟨projects, teams, users, w1, w2, w3, hP, hT, hU, hw1, hf⟩ :=
    generate_ok_writeAll env true accessToken outPath w wSingle hsingle
  obtain ⟨projects', teams', users', w1', w2', w3', hP', hT', hU', hw2, -⟩ :=
    generate_ok_writeAll env false accessToken outPath w wMulti hmulti
  rw [hP] at hP'
  cases hP'
  rw [hT] at hT'
  cases hT'
  rw [hU] at hU'
  cases hU'
  obtain ⟨p, t, pr, tk, u, i, e1, e2⟩ :=
    writeAll_worlds env projects teams users outPath w3 wSingle wMulti hw1 hw2
  subst e1 e2
  simp only [World.append, hf, haccount, hmain, hteams, hprojects, htokens, husers,
    String.append_left_cancel_iff, content]
  constructor
  · apply String.ext
    simp
  · simp

theorem C5_single_file_is_concatenation_witness :
    Main.generate sampleEnv true "tok" "out" emptyWorld =
      Step.ok () (Main.generate sampleEnv true "tok" "out" emptyWorld).world ∧
    Main.generate sampleEnv false "tok" "out" emptyWorld =
      Step.ok () (Main.generate sampleEnv false "tok" "out" emptyWorld).world ∧
    emptyWorld.files ("out" ++ "/rollbar_account.tf") = none ∧
    (content ((Main.generate sampleEnv true "tok" "out" emptyWorld).world.files
        ("out" ++ "/rollbar_account.tf")) =
      content ((Main.generate sampleEnv false "tok" "out" emptyWorld).world.files
        ("out" ++ "/main.tf")) ++
      content ((Main.generate sampleEnv false "tok" "out" emptyWorld).world.files
        ("out" ++ "/teams.tf")) ++
      content ((Main.generate sampleEnv false "tok" "out" emptyWorld).world.files
        ("out" ++ "/projects.tf")) ++
      content ((Main.generate sampleEnv false "tok" "out" emptyWorld).world.files
        ("out" ++ "/access_tokens.tf")) ++
      content ((Main.generate sampleEnv false "tok" "out" emptyWorld).world.files
        ("out" ++ "/users.tf")) ∧
    (Main.generate sampleEnv true "tok" "out" emptyWorld).world.files ("out" ++ "/import") =
      (Main.generate sampleEnv false "tok" "out" emptyWorld).world.files ("out" ++ "/import")) :=
  ⟨rfl, rfl, rfl,
    C5_single_file_is_concatenation sampleEnv "tok" "out" emptyWorld _ _ rfl rfl rfl rfl rfl rfl
      rfl rfl⟩


/-! ### The team-user relationship -/

theorem forRange_mem {α : Type} (body : α → World → Step α) (xs ys : List α) (w w' : World)
    (h : forRange body xs w = Step.ok ys w') :
    ∀ y ∈ ys, ∃ x ∈ xs, ∃ wa wb, body x wa = Step.ok y wb := by
  induction xs generalizing ys w w' with
  | nil =>
    unfold forRange at h
    cases h
    intro y hy
    cases hy
  | cons x xs ih =>
    unfold forRange at h
    cases hb : body x w with
    | exit c w1 =>
      rw [hb] at h
      cases h
    | ok y1 w1 =>
      rw [hb] at h
      simp only [Step.andThen] at h
      cases hr : forRange body xs w1 with
      | exit c w2 =>
        rw [hr] at h
        cases h
      | ok ys1 w2 =>
        rw [hr] at h
        simp only at h
        cases h
        intro y hy
        rcases List.mem_cons.mp hy with rfl | hy
        · exact ⟨x, List.mem_cons_self _ _, w, w1, hb⟩
        · obtain ⟨x', hx', wa, wb, hxb⟩ := ih ys1 w1 w' hr y hy
          exact ⟨x', List.mem_cons_of_mem _ hx', wa, wb, hxb⟩

theorem fetchTeamProjects_ok (env : Env) (tok : String) (team team' : Team) (w w' : World)
    (h : fetchTeamProjects env tok team w = Step.ok team' w') :
    team'.ID = team.ID ∧ team'.Users = team.Users := by
  unfold fetchTeamProjects at h
  simp only [] at h
  cases hget : fetch env tok ("team/" ++ strconv.Itoa team.ID ++ "/projects") w with
  | exit c w1 =>
    rw [hget] at h
    cases h
  | ok raw w1 =>
    rw [hget] at h
    simp only [Step.andThen] at h
    cases hdec : env.unmarshalTeamProjectsResponse raw with
    | none =>
      rw [hdec] at h
      cases h
    | some data =>
      rw [hdec] at h
      simp only at h
      by_cases he : data.Err = 0
      · simp only [he, ne_eq, not_true_eq_false, if_false, Step.ok.injEq] at h
        rw [← h.1]
        exact ⟨rfl, rfl⟩
      · simp only [ne_eq, he, not_false_eq_true, if_true] at h
        cases h

theorem fetchTeamUsers_ok (env : Env) (tok : String) (team team' : Team) (w w' : World)
    (h : fetchTeamUsers env tok team w = Step.ok team' w') :
    team'.ID = team.ID ∧
    ∃ ids, teamUsersAnswer env tok team.ID = some ids ∧ team'.Users = team.Users ++ ids := by
  unfold fetchTeamUsers at h
  simp only [] at h
  cases hget : fetch env tok ("team/" ++ strconv.Itoa team.ID ++ "/users") w with
  | exit c w1 =>
    rw [hget] at h
    cases h
  | ok raw w1 =>
    have hbody := (fetch_spec env tok _ w).2 raw w1 hget
    rw [hget] at h
    simp only [Step.andThen] at h
    cases hdec : env.unmarshalTeamUsersResponse raw with
    | none =>
      rw [hdec] at h
      cases h
    | some data =>
      rw [hdec] at h
      simp only at h
      by_cases he : data.Err = 0
      · simp only [he, ne_eq, not_true_eq_false, if_false, Step.ok.injEq] at h
        rw [← h.1]
        refine ⟨rfl, data.Result.map (fun u => u.UserID), ?_, ?_⟩
        · simp [teamUsersAnswer, hbody, hdec]
        · exact foldl_append_singleton _ _ _
      · simp only [ne_eq, he, not_false_eq_true, if_true] at h
        cases h

theorem fetchUserTeams_ok (env : Env) (tok : String) (user user' : User) (w w' : World)
    (h : fetchUserTeams env tok user w = Step.ok user' w') :
    user'.ID = user.ID ∧
    ∃ ts, userTeamsAnswer env tok user.ID = some ts ∧ user'.Teams = user.Teams ++ ts := by
  unfold fetchUserTeams at h
  simp only [] at h
  cases hget : fetch env tok ("user/" ++ strconv.Itoa user.ID ++ "/teams") w with
  | exit c w1 =>
    rw [hget] at h
    cases h
  | ok raw w1 =>
    have hbody := (fetch_spec env tok _ w).2 raw w1 hget
    rw [hget] at h
    simp only [Step.andThen] at h
    cases hdec : env.unmarshalUserTeamResponse raw with
    | none =>
      rw [hdec] at h
      cases h
    | some data =>
      rw [hdec] at h
      simp only at h
      by_cases he : data.Err = 0
      · simp only [he, ne_eq, not_true_eq_false, if_false, Step.ok.injEq] at h
        rw [← h.1]
        refine ⟨rfl, data.Result.Teams, ?_, ?_⟩
        · simp [userTeamsAnswer, hbody, hdec]
        · have := foldl_append_singleton (fun t : Team => t) data.Result.Teams user.Teams
          simpa using this
      · simp only [ne_eq, he, not_false_eq_true, if_true] at h
        cases h

theorem FetchTeams_ok (env : Env) (tok : String) (teams : List Team) (w w' : World)
    (h : FetchTeams env tok w = Step.ok teams w') :
    ∀ T ∈ teams, ∃ ts0 t0 ids, teamsAnswer env tok = some ts0 ∧ t0 ∈ ts0 ∧ T.ID = t0.ID ∧
      teamUsersAnswer env tok T.ID = some ids ∧ T.Users = t0.Users ++ ids := by
  unfold FetchTeams at h
  cases hget : fetch env tok "teams" w with
  | exit c w1 =>
    rw [hget] at h
    cases h
  | ok raw w1 =>
    have hbody := (fetch_spec env tok _ w).2 raw w1 hget
    rw [hget] at h
    simp only [Step.andThen] at h
    cases hdec : env.unmarshalTeamResponse raw with
    | none =>
      rw [hdec] at h
      cases h
    | some data =>
      rw [hdec] at h
      simp only at h
      by_cases he : data.Err = 0
      · simp only [he, ne_eq, not_true_eq_false, if_false] at h
        intro T hT
        obtain ⟨t0, ht0, wa, wb, hb⟩ := forRange_mem _ _ _ _ _ h T hT
        cases hp : fetchTeamProjects env tok t0 wa with
        | exit c w2 =>
          rw [hp] at hb
          cases hb
        | ok t1 w2 =>
          rw [hp] at hb
          simp only [Step.andThen] at hb
          obtain ⟨hid1, hus1⟩ := fetchTeamProjects_ok env tok t0 t1 wa w2 hp
          obtain ⟨hid2, ids, hans, hus2⟩ := fetchTeamUsers_ok env tok t1 T w2 wb hb
          refine ⟨data.Result, t0, ids, ?_, ht0, hid2.trans hid1, ?_, ?_⟩
          · unfold teamsAnswer
            rw [hbody]
            simp [hdec]
          · rw [hid2]
            exact hans
          · rw [hus2, hus1]
      · simp only [ne_eq, he, not_false_eq_true, if_true] at h
        cases h

theorem FetchUsers_ok (env : Env) (tok : String) (users : List User) (w w' : World)
    (h : FetchUsers env tok w = Step.ok users w') :
    ∀ U ∈ users, ∃ us0 u0 ts, usersAnswer env tok = some us0 ∧ u0 ∈ us0 ∧ U.ID = u0.ID ∧
      userTeamsAnswer env tok U.ID = some ts ∧ U.Teams = u0.Teams ++ ts := by
  unfold FetchUsers at h
  cases hget : fetch env tok "users" w with
  | exit c w1 =>
    rw [hget] at h
    cases h
  | ok raw w1 =>
    have hbody := (fetch_spec env tok _ w).2 raw w1 hget
    rw [hget] at h
    simp only [Step.andThen] at h
    cases hdec : env.unmarshalUserResponse raw with
    | none =>
      rw [hdec] at h
      cases h
    | some data =>
      rw [hdec] at h
      simp only at h
      by_cases he : data.Err = 0
      · simp only [he, ne_eq, not_true_eq_false, if_false] at h
        intro U hU
        obtain ⟨u0, hu0, wa, wb, hb⟩ := forRange_mem _ _ _ _ _ h U hU
        obtain ⟨hid, ts, hans, hts⟩ := fetchUserTeams_ok env tok u0 U wa wb hb
        refine ⟨data.Result.Users, u0, ts, ?_, hu0, hid, ?_, hts⟩
        · unfold usersAnswer
          rw [hbody]
          simp [hdec]
        · rw [hid]
          exact hans
      · simp only [ne_eq, he, not_false_eq_true, if_true] at h
        cases h

/-- C8, as stated, fails: when `team/1/users` lists nobody while
`user/7/teams` lists team 1, both fetches succeed and user 7 has team 1 among
its teams although team 1 does not have user 7 among its users. -/
theorem C8_answers_may_disagree :
    ∃ teams users w1 w2,
      FetchTeams lopsidedEnv "tok" emptyWorld = Step.ok teams w1 ∧
      FetchUsers lopsidedEnv "tok" w1 = Step.ok users w2 ∧
      ¬ teamUserConsistent teams users := by
  refine ⟨[{ sampleTeam1 with Projects := [10] }, { sampleTeam2 with Projects := [10] }],
    [{ sampleUser with Teams := [sampleTeam1] }],
    (FetchTeams lopsidedEnv "tok" emptyWorld).world,
    (FetchUsers lopsidedEnv "tok" (FetchTeams lopsidedEnv "tok" emptyWorld).world).world,
    rfl, rfl, ?_⟩
  intro h
  have := h { sampleTeam1 with Projects := [10] } (by simp)
    { sampleUser with Teams := [sampleTeam1] } (by simp)
  revert this
  decide

/-- C8, amended. Suppose `FetchTeams` and then `FetchUsers` return, the team
and user records of the list endpoints arrive with empty `Users` and `Teams`
lists, and the API answers agree: for every fetched team `T` and user `U`,
`team/<T.ID>/users` lists `U.ID` exactly when `user/<U.ID>/teams` lists a team
with ID `T.ID`. Then `U.ID` occurs in `T.Users` if and only if a team with ID
`T.ID` occurs in `U.Teams`. -/
theorem C8_consistent_when_answers_agree (env : Env) (accessToken : String)
    (w w1 w2 : World) (teams : List Team) (users : List User)
    (hteams : FetchTeams env accessToken w = Step.ok teams w1)
    (husers : FetchUsers env accessToken w1 = Step.ok users w2)
    (hfreshTeams : ∀ t ∈ (teamsAnswer env accessToken).getD [], t.Users = [])
    (hfreshUsers : ∀ u ∈ (usersAnswer env accessToken).getD [], u.Teams = [])
    (hagree : ∀ T ∈ teams, ∀ U ∈ users,
      (U.ID ∈ (teamUsersAnswer env accessToken T.ID).getD [] ↔
        ∃ T' ∈ (userTeamsAnswer env accessToken U.ID).getD [], T'.ID = T.ID)) :
    teamUserConsistent teams users := by
  intro T hT U hU
  obtain ⟨ts0, t0, ids, hta, ht0, -, hids, hTU⟩ := FetchTeams_ok env accessToken teams w w1 hteams T hT
  obtain ⟨us0, u0, ts, hua, hu0, -, hts, hUT⟩ := FetchUsers_ok env accessToken users w1 w2 husers U hU
  have h1 : t0.Users = [] := hfreshTeams t0 (by rw [hta]; exact ht0)
  have h2 : u0.Teams = [] := hfreshUsers u0 (by rw [hua]; exact hu0)
  have h3 := hagree T hT U hU
  rw [hids, hts] at h3
  rw [hTU, hUT, h1, h2, List.nil_append, List.nil_append]
  exact h3

theorem C8_consistent_when_answers_agree_witness :
    FetchTeams sampleEnv "tok" emptyWorld =
      Step.ok [{ sampleTeam1 with Projects := [10], Users := [7] },
          { sampleTeam2 with Projects := [10] }]
        (FetchTeams sampleEnv "tok" emptyWorld).world ∧
    FetchUsers sampleEnv "tok" (FetchTeams sampleEnv "tok" emptyWorld).world =
      Step.ok [{ sampleUser with Teams := [sampleTeam1] }]
        (FetchUsers sampleEnv "tok" (FetchTeams sampleEnv "tok" emptyWorld).world).world ∧
    teamUserConsistent
      [{ sampleTeam1 with Projects := [10], Users := [7] }, { sampleTeam2 with Projects := [10] }]
      [{ sampleUser with Teams := [sampleTeam1] }] :=
  ⟨rfl, rfl,
    C8_consistent_when_answers_agree sampleEnv "tok" emptyWorld
      (FetchTeams sampleEnv "tok" emptyWorld).world
      (FetchUsers sampleEnv "tok" (FetchTeams sampleEnv "tok" emptyWorld).world).world
      _ _ rfl rfl (by decide) (by decide) (by decide)⟩

/-! ### The depends_on line -/

theorem replaceFrom_copy (c : Char) (cs : List Char) (hc : c ≠ '.') :
    strings.replaceFrom ['.', 'i', 'd'] [] 0 (c :: cs) =
      c :: strings.replaceFrom ['.', 'i', 'd'] [] 0 cs := by
  have h : ('.' == c) = false := by
    simp only [beq_eq_false_iff_ne, ne_eq]
    exact fun e => hc e.symm
  simp [strings.replaceFrom, List.isPrefixOf, h]

theorem replaceFrom_copy_list (l r : List Char) (hl : ∀ c ∈ l, c ≠ '.') :
    strings.replaceFrom ['.', 'i', 'd'] [] 0 (l ++ r) =
      l ++ strings.replaceFrom ['.', 'i', 'd'] [] 0 r := by
  induction l with
  | nil => rfl
  | cons a l ih =>
    rw [List.cons_append, replaceFrom_copy a _ (hl a (List.mem_cons_self _ _)),
      ih (fun c hc => hl c (List.mem_cons_of_mem _ hc))]
    rfl

theorem replaceFrom_match (r : List Char) :
    strings.replaceFrom ['.', 'i', 'd'] [] 0 ('.' :: 'i' :: 'd' :: r) =
      strings.replaceFrom ['.', 'i', 'd'] [] 0 r := by
  simp [strings.replaceFrom, List.isPrefixOf]

theorem replaceFrom_dot_name (n r : List Char) (hn : ∀ c ∈ n, c ≠ '.')
    (hid : List.isPrefixOf ['i', 'd'] n = false) :
    strings.replaceFrom ['.', 'i', 'd'] [] 0 ('.' :: (n ++ '.' :: r)) =
      '.' :: strings.replaceFrom ['.', 'i', 'd'] [] 0 (n ++ '.' :: r) := by
  have h : List.isPrefixOf ['i', 'd'] (n ++ '.' :: r) = false := by
    match n, hid with
    | [], _ => simp [List.isPrefixOf]
    | [a], _ =>
      by_cases ha : a = 'i'
      · subst ha
        simp [List.isPrefixOf]
      · have : ('i' == a) = false := by
          simp only [beq_eq_false_iff_ne, ne_eq]
          exact fun e => ha e.symm
        simp [List.isPrefixOf, this]
    | a :: b :: n', hid =>
      simpa [List.isPrefixOf] using hid
  simp only [strings.replaceFrom, List.isPrefixOf, beq_self_eq_true, Bool.true_and, h,
    Bool.false_eq_true, if_false]

theorem replaceFrom_segment (n rest : List Char) (hn : ∀ c ∈ n, c ≠ '.')
    (hid : List.isPrefixOf ['i', 'd'] n = false) :
    strings.replaceFrom ['.', 'i', 'd'] [] 0
        ("rollbar_team".data ++ '.' :: (n ++ '.' :: 'i' :: 'd' :: (", ".data ++ rest))) =
      "rollbar_team".data ++ '.' :: (n ++ (", ".data ++
        strings.replaceFrom ['.', 'i', 'd'] [] 0 rest)) := by
  rw [replaceFrom_copy_list _ _ (by decide), replaceFrom_dot_name n _ hn hid,
    replaceFrom_copy_list n _ hn, replaceFrom_match, replaceFrom_copy_list _ _ (by decide)]

theorem sanitizeIdentifier_no_dot (s : String) : ∀ c ∈ (sanitizeIdentifier s).data, c ≠ '.' := by
  intro c hc
  rw [sanitizeIdentifier_eq] at hc
  exact (sanitizeDroppingBackslash_clean s c hc).2.1

theorem replaceFrom_team (name : String) (rest : List Char)
    (hid : List.isPrefixOf ['i', 'd'] (sanitizeIdentifier name).data = false) :
    strings.replaceFrom ['.', 'i', 'd'] [] 0
        (("rollbar_team." ++ sanitizeIdentifier name ++ ".id, ").data ++ rest) =
      ("rollbar_team." ++ sanitizeIdentifier name ++ ", ").data ++
        strings.replaceFrom ['.', 'i', 'd'] [] 0 rest := by
  have h := replaceFrom_segment (sanitizeIdentifier name).data rest
    (sanitizeIdentifier_no_dot name) hid
  have e1 : ("rollbar_team." ++ sanitizeIdentifier name ++ ".id, ").data ++ rest =
      "rollbar_team".data ++ '.' :: ((sanitizeIdentifier name).data ++
        '.' :: 'i' :: 'd' :: (", ".data ++ rest)) := by
    simp
  have e2 : ("rollbar_team." ++ sanitizeIdentifier name ++ ", ").data ++
        strings.replaceFrom ['.', 'i', 'd'] [] 0 rest =
      "rollbar_team".data ++ '.' :: ((sanitizeIdentifier name).data ++ (", ".data ++
        strings.replaceFrom ['.', 'i', 'd'] [] 0 rest)) := by
    simp
  rw [e1, e2]
  exact h

theorem replaceFrom_refs (refs : List Team) (rest : List Char)
    (hid : ∀ T ∈ refs, List.isPrefixOf ['i', 'd'] (sanitizeIdentifier T.Name).data = false) :
    strings.replaceFrom ['.', 'i', 'd'] [] 0
        ((String.join (refs.map fun T =>
          "rollbar_team." ++ sanitizeIdentifier T.Name ++ ".id, ")).data ++ rest) =
      (String.join (refs.map fun T =>
          "rollbar_team." ++ sanitizeIdentifier T.Name ++ ", ")).data ++
        strings.replaceFrom ['.', 'i', 'd'] [] 0 rest := by
  induction refs with
  | nil => simp
  | cons T refs ih =>
    have h2 := ih (fun T' hT' => hid T' (List.mem_cons_of_mem _ hT'))
    simp only [String.data_join] at h2
    simp only [List.map_cons, String.data_join, List.flatten_cons, List.append_assoc]
    rw [replaceFrom_team T.Name _ (hid T (List.mem_cons_self _ _)), h2]

/-- The `depends_on` text is the list of team addresses when no referenced
team has a sanitized name that starts with `id`. -/
theorem depends_on_when_no_name_starts_with_id (project : Project) (teams : List Team)
    (hid : ∀ T ∈ referencedTeams project teams,
      List.isPrefixOf ['i', 'd'] (sanitizeIdentifier T.Name).data = false) :
    strings.ReplaceAll (projectTeamIDs project teams) ".id" "" =
      "[" ++ String.join ((referencedTeams project teams).map fun T =>
        "rollbar_team." ++ sanitizeIdentifier T.Name ++ ", ") ++ "]" := by
  rw [projectTeamIDs_eq]
  apply String.ext
  have hold : ¬ (".id" : String).data = [] := by decide
  simp only [strings.ReplaceAll, hold, if_false]
  have h := replaceFrom_refs (referencedTeams project teams) [']'] hid
  have hb : strings.replaceFrom ['.', 'i', 'd'] [] 0 [']'] = [']'] := by decide
  rw [hb] at h
  show strings.replaceFrom ['.', 'i', 'd'] [] 0 _ = _
  simp only [String.data_append]
  rw [List.append_assoc, List.singleton_append, replaceFrom_copy _ _ (by decide), h]
  rfl

/-- C10. For the team name `ideas` the `depends_on` line is not the list of
team addresses: `strings.ReplaceAll(projectTeamIDs, ".id", "")` also removes
the `.id` in which the name starts, leaving `rollbar_teameas`. -/
theorem C10_depends_on_mangles_names_starting_with_id :
    projectResource sampleProject [{ sampleTeam2 with Projects := [10] }] =
      "resource \"rollbar_project\" \"web_app\" \x7b\n" ++
      "  name = \"web.app\"\n" ++
      "  team_ids = [rollbar_team.ideas.id, ]\n" ++
      "  depends_on = [rollbar_teameas, ]\n" ++
      "\x7d\n\n" := by
  decide
